import Mathlib

/-!
Shallow embedding of the simple-git terminal client: the unified-diff parser
and patch generator (internal/git/diff.go), the file-status predicates
(internal/git/status.go), and the bubbletea view state machines
(internal/ui/status.go, diff.go, branches.go, stashes.go), translated from
the Go sources.

Modelling conventions:
* Go strings are lists of characters (`GoStr`); the diff text handled here is
  ASCII so bytes and runes coincide.
* Go `int` fields are `Int` where negative values occur (file indices start
  at -1) and `Nat` where the source value is nonnegative by construction
  (cursors, lengths); Go's `max(0, n-1)` on ints coincides with truncated
  subtraction on `Nat`.
* `map[int]bool` used as a set is a `Finset ℕ`.
* A Go code path that dereferences a nil pointer is modelled by an `Option`
  result whose `none` marks the runtime panic.
* `tea.Cmd` values returned by `Update` only trigger external git commands;
  they never alter the model directly, so the embedded update functions
  return the new model, and the message produced by a command closure is
  modelled as a separate function where a claim needs it.
-/

/-- Go strings modelled as character lists. -/
abbrev GoStr := List Char

/-- strings.HasPrefix. -/
def goStartsWith (s p : GoStr) : Bool := p.isPrefixOf s

/-- strings.Contains: `sub` occurs contiguously somewhere in `s`. -/
def goContains (s sub : GoStr) : Bool :=
  (List.range (s.length + 1)).any (fun i => sub.isPrefixOf (s.drop i))

/-- strings.Split with a single-character separator (the source only splits
on "\n" and " ").  `splitOnChar c s` always returns a nonempty list whose
concatenation interleaved with `c` is `s`, exactly like Go's
`strings.Split`. -/
def splitOnChar (c : Char) : GoStr → List GoStr
  | [] => [[]]
  | a :: rest =>
    match splitOnChar c rest with
    | [] => [[]]
    | s :: ss => if a = c then [] :: s :: ss else (a :: s) :: ss

/-- The type of a diff line (diff.go, `LineType`). -/
inductive LineType where
  | LineContext
  | LineAdded
  | LineRemoved
  | LineHeader
  deriving DecidableEq, Repr, Inhabited

/-- One line of a diff (diff.go, `DiffLine`).  The source field `Type` is
spelled `type` because `Type` is reserved in Lean. -/
structure DiffLine where
  type : LineType
  Content : GoStr
  deriving DecidableEq, Repr, Inhabited

/-- A single hunk (diff.go, `Hunk`).  `FileIndex` is `Int` because the
parser starts its counter at -1. -/
structure Hunk where
  Header : GoStr
  Lines : List DiffLine
  StartOld : Nat
  CountOld : Nat
  StartNew : Nat
  CountNew : Nat
  FilePath : GoStr
  FileIndex : Int
  HunkIndex : Nat
  Staged : Bool
  deriving DecidableEq, Repr, Inhabited

/-- A file's diff (diff.go, `FileDiff`). -/
structure FileDiff where
  Path : GoStr
  Hunks : List Hunk
  Header : List GoStr
  deriving DecidableEq, Repr, Inhabited

/-- All file diffs (diff.go, `DiffResult`). -/
structure DiffResult where
  Files : List FileDiff
  deriving DecidableEq, Repr, Inhabited

/-- The literal "diff --git". -/
def diffGitLit : GoStr := "diff --git".toList

/-- The literal "@@". -/
def atatLit : GoStr := "@@".toList

/-- The seven file-header prefixes recognised between a `diff --git` line and
the first hunk (diff.go lines 264-270). -/
def fileHeaderLits : List GoStr :=
  ["index ".toList, "---".toList, "+++".toList, "new file".toList,
   "deleted file".toList, "old mode".toList, "new mode".toList]

/-- Whether a line is a file-header line (the `||` chain in diff.go). -/
def isFileHeaderLine (line : GoStr) : Bool :=
  fileHeaderLits.any (fun p => goStartsWith line p)

/-- The `parseInt` (diff.go): folds decimal digits, ignoring any other
character; returns 0 on the empty string. -/
def parseIntGo (s : GoStr) : Nat :=
  s.foldl (fun n c => if '0' ≤ c ∧ c ≤ '9' then n * 10 + (c.toNat - '0'.toNat) else n) 0

/-- ASCII decimal digit test (the regex class `\d`). -/
def isDigitChar (c : Char) : Bool := '0' ≤ c ∧ c ≤ '9'

/-- Strip a literal from the front of a string, or fail. -/
def dropLit (s lit : GoStr) : Option GoStr :=
  if goStartsWith s lit then some (s.drop lit.length) else none

/-- Matcher for `hunkHeaderRegex`, the anchored pattern
`^@@ -(\d+)(?:,(\d+))? \+(\d+)(?:,(\d+))? @@(.*)$` (diff.go line 217).
Returns the four numeric capture groups, an absent optional group being the
empty string as in `FindStringSubmatch`.  The trailing `(.*)$` forces the
remainder to contain no newline (`.` does not match `\n` and `$` anchors at
the end of the text). -/
def matchHunkHeader (line : GoStr) : Option (GoStr × GoStr × GoStr × GoStr) :=
  match dropLit line ("@@ -".toList) with
  | none => none
  | some r1 =>
    let g1 := r1.takeWhile isDigitChar
    let r2 := r1.dropWhile isDigitChar
    if g1 = [] then none else
    let p2 : GoStr × GoStr :=
      match r2 with
      | ',' :: r =>
        let d := r.takeWhile isDigitChar
        if d = [] then ([], r2) else (d, r.dropWhile isDigitChar)
      | _ => ([], r2)
    match dropLit p2.2 (" +".toList) with
    | none => none
    | some r4 =>
      let g3 := r4.takeWhile isDigitChar
      let r5 := r4.dropWhile isDigitChar
      if g3 = [] then none else
      let p4 : GoStr × GoStr :=
        match r5 with
        | ',' :: r =>
          let d := r.takeWhile isDigitChar
          if d = [] then ([], r5) else (d, r.dropWhile isDigitChar)
        | _ => ([], r5)
      match dropLit p4.2 (" @@".toList) with
      | none => none
      | some rest =>
        if '\n' ∈ rest then none else some (g1, p2.1, g3, p4.1)

/-- Path extraction from a `diff --git a/path b/path` line
(diff.go lines 250-258). -/
def extractGitPath (line : GoStr) : GoStr :=
  let parts := splitOnChar ' ' line
  if 4 ≤ parts.length then
    let path := parts.getD 3 []
    if 2 < path.length ∧ path.getD 1 ' ' = '/' then path.drop 2 else path
  else []

/-- Classification of a content line by its leading character
(diff.go lines 309-317). -/
def classifyType (line : GoStr) : LineType :=
  if goStartsWith line ['+'] then LineType.LineAdded
  else if goStartsWith line ['-'] then LineType.LineRemoved
  else LineType.LineContext

/-- A content line as stored by the parser (diff.go lines 319-322). -/
def mkDiffLine (line : GoStr) : DiffLine :=
  { type := classifyType line, Content := line }

/-- A freshly created hunk with its header parsed
(diff.go lines 283-303). -/
def mkHunk (line : GoStr) (path : GoStr) (fi : Int) (hi : Nat) : Hunk :=
  let base : Hunk :=
    { Header := line, Lines := [], StartOld := 0, CountOld := 0,
      StartNew := 0, CountNew := 0, FilePath := path, FileIndex := fi,
      HunkIndex := hi, Staged := false }
  match matchHunkHeader line with
  | none => base
  | some (g1, g2, g3, g4) =>
    let co := parseIntGo g2
    let cn := parseIntGo g4
    { base with
      StartOld := parseIntGo g1,
      CountOld := if co = 0 ∧ g2 = [] then 1 else co,
      StartNew := parseIntGo g3,
      CountNew := if cn = 0 ∧ g4 = [] then 1 else cn }

/-- Append the pending hunk, if any, to a file (the save steps at
diff.go lines 236-239, 279-281 and 326-331). -/
def flushHunk (f : FileDiff) (ch : Option Hunk) : FileDiff :=
  match ch with
  | none => f
  | some h => { f with Hunks := f.Hunks ++ [h] }

/-- The parser's main loop over the split lines (diff.go lines 230-332),
with the mutable `currentFile`/`currentHunk`/`fileIndex`/`result` state made
explicit.  When a hunk-marker line arrives with no current file the Go code
dereferences the nil `currentFile` pointer (`currentFile.Path`,
`len(currentFile.Hunks)` on lines 283-287); that panic is `none`. -/
def parseDiffLoop : List GoStr → Option FileDiff → Option Hunk → Int →
    List FileDiff → Option (List FileDiff)
  | [], cf, ch, _, acc =>
    match cf with
    | none => some acc
    | some f => some (acc ++ [flushHunk f ch])
  | line :: rest, cf, ch, fi, acc =>
    if goStartsWith line diffGitLit then
      let acc' :=
        match cf with
        | none => acc
        | some f => acc ++ [flushHunk f ch]
      parseDiffLoop rest
        (some { Path := extractGitPath line, Hunks := [], Header := [line] })
        none (fi + 1) acc'
    else
      match cf, ch with
      | some f, none =>
        if isFileHeaderLine line then
          parseDiffLoop rest (some { f with Header := f.Header ++ [line] }) none fi acc
        else if goStartsWith line atatLit then
          parseDiffLoop rest (some f) (some (mkHunk line f.Path fi f.Hunks.length)) fi acc
        else
          parseDiffLoop rest (some f) none fi acc
      | some f, some h =>
        if goStartsWith line atatLit then
          let f' := flushHunk f (some h)
          parseDiffLoop rest (some f') (some (mkHunk line f'.Path fi f'.Hunks.length)) fi acc
        else
          parseDiffLoop rest (some f)
            (some { h with Lines := h.Lines ++ [mkDiffLine line] }) fi acc
      | none, ch' =>
        if goStartsWith line atatLit then
          none
        else
          match ch' with
          | none => parseDiffLoop rest none none fi acc
          | some h =>
            parseDiffLoop rest none
              (some { h with Lines := h.Lines ++ [mkDiffLine line] }) fi acc

/-- The `parseDiff` (diff.go lines 219-335).  Empty input yields an empty
result; otherwise the input is split on newlines and fed to the loop.
`none` marks the nil-pointer panic described at `parseDiffLoop`. -/
def parseDiff (output : GoStr) : Option DiffResult :=
  if output = [] then some { Files := [] }
  else (parseDiffLoop (splitOnChar '\n' output) none none (-1) []).map
    (fun fs => { Files := fs })

/-- A string followed by a newline (one `sb.WriteString(x); sb.WriteString("\n")`
pair of `GeneratePatch`). -/
def nlTerm (s : GoStr) : GoStr := s ++ ['\n']

/-- The `Hunk.GeneratePatch` (diff.go lines 446-466): file header lines, the hunk
header, and the hunk's lines, each newline-terminated. -/
def GeneratePatch (h : Hunk) (f : FileDiff) : GoStr :=
  (f.Header.map nlTerm).flatten ++ nlTerm h.Header ++
    (h.Lines.map (fun dl => nlTerm dl.Content)).flatten

/-- A file's status (status.go, `FileStatus`).  The two status codes are
single bytes in Go, modelled as `Char`. -/
structure FileStatus where
  Path : GoStr
  DisplayPath : GoStr
  IndexStatus : Char
  WorkStatus : Char
  OriginalPath : GoStr
  OriginalDisplayPath : GoStr
  deriving DecidableEq, Repr

instance : Inhabited FileStatus :=
  ⟨{ Path := [], DisplayPath := [], IndexStatus := ' ', WorkStatus := ' ',
     OriginalPath := [], OriginalDisplayPath := [] }⟩

/-- The `FileStatus.IsStaged` (status.go lines 18-20). -/
def FileStatus.IsStaged (f : FileStatus) : Bool :=
  f.IndexStatus != ' ' && f.IndexStatus != '?'

/-- The `FileStatus.IsUnstaged` (status.go lines 23-25). -/
def FileStatus.IsUnstaged (f : FileStatus) : Bool :=
  f.WorkStatus != ' ' && f.WorkStatus != '?'

/-- The `FileStatus.IsUntracked` (status.go lines 28-30). -/
def FileStatus.IsUntracked (f : FileStatus) : Bool :=
  f.IndexStatus == '?' && f.WorkStatus == '?'

/-- The `StatusResult` (status.go lines 66-70). -/
structure StatusResult where
  Staged : List FileStatus
  Unstaged : List FileStatus
  Untracked : List FileStatus
  deriving DecidableEq, Repr, Inhabited

/-- A selectable row of the status view (ui/status.go, `StatusItem`).
`Section` is one of the Go string constants "staged", "unstaged",
"untracked". -/
structure StatusItem where
  File : FileStatus
  Section : GoStr
  deriving DecidableEq, Repr, Inhabited

/-- The `buildItems` (ui/status.go lines 483-501); the argument is the
`*git.StatusResult` pointer, `none` for nil. -/
def buildItems (status : Option StatusResult) : List StatusItem :=
  match status with
  | none => []
  | some st =>
    st.Staged.map (fun f => { File := f, Section := "staged".toList }) ++
    st.Unstaged.map (fun f => { File := f, Section := "unstaged".toList }) ++
    st.Untracked.map (fun f => { File := f, Section := "untracked".toList })

/-- The `hunkStableKey` (ui/diff.go lines 302-318): file path, newline, the
added/removed line contents each newline-terminated; when the hunk has no
added/removed line, the header instead. -/
def hunkStableKey (hunk : Hunk) : GoStr :=
  let r := hunk.Lines.foldl
    (fun (acc : GoStr × Bool) line =>
      if line.type = LineType.LineAdded ∨ line.type = LineType.LineRemoved then
        (acc.1 ++ line.Content ++ ['\n'], true)
      else acc)
    (hunk.FilePath ++ ['\n'], false)
  if !r.2 then r.1 ++ hunk.Header else r.1

/-- The lookup list of `indexByKey` after the build loop of
`keepHunkOrder` (ui/diff.go lines 271-275): for each key, the indices of
the new hunks carrying that key, in increasing order (the loop appends
`i` in order). -/
def buildIndexByKey (newHunks : List Hunk) : GoStr → List Nat :=
  fun k => (List.range newHunks.length).filter
    (fun i => hunkStableKey (newHunks.getD i default) = k)

/-- The mutable state of `keepHunkOrder`'s first loop: the picked indices
(`ordered` holds indices into the new list; the Go code appends
`newHunks[idx]` itself, recovered by the final `map`), the `used` set, and
the current `indexByKey`. -/
structure KOState where
  ordered : List Nat
  used : Finset ℕ
  ibk : GoStr → List Nat

/-- One iteration of the first loop of `keepHunkOrder`
(ui/diff.go lines 279-291). -/
def koStep (st : KOState) (h : Hunk) : KOState :=
  let key := hunkStableKey h
  match st.ibk key with
  | [] => st
  | idx :: restIdx =>
    let ibk' := fun k => if k = key then restIdx else st.ibk k
    if idx ∈ st.used then { st with ibk := ibk' }
    else { ordered := st.ordered ++ [idx], used := insert idx st.used, ibk := ibk' }

/-- The `DiffModel.keepHunkOrder` (ui/diff.go lines 270-300), with the receiver's
`m.hunks` passed as `prevHunks`. -/
def keepHunkOrder (prevHunks newHunks : List Hunk) : List Hunk :=
  let st := prevHunks.foldl koStep
    { ordered := [], used := ∅, ibk := buildIndexByKey newHunks }
  let tailIdx := (List.range newHunks.length).filter (fun i => i ∉ st.used)
  (st.ordered ++ tailIdx).map (fun i => newHunks.getD i default)

/-- The key bindings (keymap.go, `Keymap`). -/
structure Keymap where
  Up : GoStr
  Down : GoStr
  Left : GoStr
  Right : GoStr
  Top : GoStr
  Bottom : GoStr
  Select : GoStr
  Back : GoStr
  Quit : GoStr
  Stage : GoStr
  StageAll : GoStr
  Unstage : GoStr
  UnstageAll : GoStr
  Discard : GoStr
  Commit : GoStr
  CommitEdit : GoStr
  Push : GoStr
  Stash : GoStr
  StashAll : GoStr
  FileDiff : GoStr
  AllDiffs : GoStr
  FullDiff : GoStr
  Branches : GoStr
  Stashes : GoStr
  Log : GoStr
  Visual : GoStr
  Help : GoStr
  VerboseHelp : GoStr
  NewBranch : GoStr
  Delete : GoStr
  deriving DecidableEq, Repr

/-- The `DefaultKeymap` (keymap.go). -/
def DefaultKeymap : Keymap where
  Up := "k".toList
  Down := "j".toList
  Left := "h".toList
  Right := "l".toList
  Top := "g".toList
  Bottom := "G".toList
  Select := "h".toList
  Back := "h".toList
  Quit := "q".toList
  Stage := "a".toList
  StageAll := "A".toList
  Unstage := "u".toList
  UnstageAll := "U".toList
  Discard := "d".toList
  Commit := "c".toList
  CommitEdit := "C".toList
  Push := "p".toList
  Stash := "s".toList
  StashAll := "S".toList
  FileDiff := "l".toList
  AllDiffs := "i".toList
  FullDiff := "f".toList
  Branches := "b".toList
  Stashes := "e".toList
  Log := "o".toList
  Visual := "v".toList
  Help := "?".toList
  VerboseHelp := "/".toList
  NewBranch := "n".toList
  Delete := "d".toList

/-- The global keymap instance (keymap.go, `var Keys = DefaultKeymap()`);
startup overrides are out of scope here. -/
def Keys : Keymap := DefaultKeymap

/-- The current branch's tracking info (branch.go, `BranchStatus`). -/
structure BranchStatus where
  Name : GoStr
  Remote : GoStr
  Ahead : Int
  Behind : Int
  deriving DecidableEq, Repr

instance : Inhabited BranchStatus := ⟨{ Name := [], Remote := [], Ahead := 0, Behind := 0 }⟩

/-- The `confirmAction` (ui/status.go lines 21-29). -/
inductive ConfirmAction where
  | confirmNone
  | confirmDiscard
  | confirmPush
  | confirmPushNew
  | confirmStash
  deriving DecidableEq, Repr, Inhabited

/-- The `stashMode` (ui/status.go lines 31-37). -/
inductive StashMode where
  | stashNone
  | stashFiles
  | stashAll
  deriving DecidableEq, Repr, Inhabited

/-- Modelled from the spec: the text-input widget
(charmbracelet/bubbles textinput) is an external library, not part of this
repository; spec §4.3 says a text-input sub-mode "captures raw character
input", so a key event appends its text to the stored value.  No claim
proved below depends on this function. -/
def textinputUpdate (value key : GoStr) : GoStr := value ++ key

/-- The `StatusModel` (ui/status.go lines 40-65).  The two textinput widgets are
reduced to their string values, `err` to an optional message text. -/
structure StatusModel where
  items : List StatusItem
  cursor : Nat
  scrollOffset : Nat
  selected : Finset ℕ
  visualMode : Bool
  visualStart : Nat
  status : Option StatusResult
  branchStatus : BranchStatus
  showHelp : Bool
  showVerboseHelp : Bool
  confirmMode : ConfirmAction
  confirmInput : GoStr
  pendingPushRemote : GoStr
  stashMode : StashMode
  stashInput : GoStr
  pendingStashMode : StashMode
  pendingStashMessage : GoStr
  commitMode : Bool
  commitInput : GoStr
  quitting : Bool
  lastKey : GoStr
  err : Option GoStr
  width : Nat
  height : Nat

/-- The `NewStatusModelWithHelp` (ui/status.go lines 73-90), restricted to the
modelled fields. -/
def NewStatusModelWithHelp (help : Bool) : StatusModel where
  items := []
  cursor := 0
  scrollOffset := 0
  selected := ∅
  visualMode := false
  visualStart := 0
  status := none
  branchStatus := default
  showHelp := false
  showVerboseHelp := help
  confirmMode := ConfirmAction.confirmNone
  confirmInput := []
  pendingPushRemote := []
  stashMode := StashMode.stashNone
  stashInput := []
  pendingStashMode := StashMode.stashNone
  pendingStashMessage := []
  commitMode := false
  commitInput := []
  quitting := false
  lastKey := []
  err := none
  width := 0
  height := 0

/-- The `StatusModel.updateVisualSelection` (ui/status.go lines 404-413): the
Go loop `for i := start; i <= end; i++` inserts exactly the indices
`start, start+1, ..., end` after the conditional swap. -/
def updateVisualSelection (m : StatusModel) : StatusModel :=
  let s := if m.visualStart > m.cursor then m.cursor else m.visualStart
  let e := if m.visualStart > m.cursor then m.visualStart else m.cursor
  { m with selected := (List.range' s (e + 1 - s)).toFinset }

/-- The `StatusModel.visibleLines` (ui/status.go lines 416-427). -/
def StatusModel.visibleLines (m : StatusModel) : Nat :=
  let reserved := if m.showVerboseHelp then 12 + 3 else 12
  if m.height ≤ reserved then 10 else m.height - reserved

/-- The scroll-offset computation shared by the three `ensureCursorVisible`
methods (ui/status.go lines 430-457, ui/diff.go lines 345-372,
ui/stashes.go lines 540-567, which triplicate this code).  All quantities
are nonnegative: under the branch condition
`cursor ≥ scrollOffset + visible` the Go int `cursor - visible + 1` equals
the truncated `cursor + 1 - visible`, `max(0, len - visible)` is the
truncated `len - visible`, and the `visible ≤ 0` early return leaves the
offset unchanged. -/
def clampedScrollOffset (cursor scrollOffset itemsLen visible : Nat) : Nat :=
  if visible = 0 then scrollOffset
  else
    let so := if cursor < scrollOffset then cursor else scrollOffset
    let so' := if cursor ≥ so + visible then cursor + 1 - visible else so
    let maxOffset := itemsLen - visible
    if so' > maxOffset then maxOffset else so'

/-- The `StatusModel.ensureCursorVisible` (ui/status.go lines 430-457). -/
def ensureCursorVisible (m : StatusModel) : StatusModel :=
  { m with scrollOffset :=
      clampedScrollOffset m.cursor m.scrollOffset m.items.length m.visibleLines }

/-- The loop of `StatusModel.getSelectedItems` (ui/status.go lines
461-470): collects the selected items in index order and remembers whether
the cursor's index was among them. -/
def getSelectedItemsLoop (m : StatusModel) : List StatusItem × Bool :=
  (List.range m.items.length).foldl
    (fun acc i =>
      if i ∈ m.selected then
        (acc.1 ++ [m.items.getD i default], acc.2 || decide (i = m.cursor))
      else acc)
    ([], false)

/-- The `StatusModel.getSelectedItems` (ui/status.go lines 459-481). -/
def getSelectedItems (m : StatusModel) : List StatusItem :=
  if 0 < m.selected.card then
    let r := getSelectedItemsLoop m
    if !r.2 && decide (m.cursor < m.items.length) then
      r.1 ++ [m.items.getD m.cursor default]
    else r.1
  else if m.cursor < m.items.length then [m.items.getD m.cursor default]
  else []

/-- The `statusMsg` case of `StatusModel.Update` (ui/status.go lines
384-394): store the new snapshot, rebuild the items, clamp the cursor
(`max(0, len-1)` is the truncated `len - 1`), fix the scroll, and clear
selection and visual mode. -/
def statusMsgUpdate (m : StatusModel) (status : Option StatusResult)
    (branchStatus : BranchStatus) : StatusModel :=
  let m := { m with status := status, branchStatus := branchStatus,
                    items := buildItems status }
  let m := if m.items.length ≤ m.cursor then { m with cursor := m.items.length - 1 } else m
  let m := ensureCursorVisible m
  { m with selected := ∅, visualMode := false }

/-- The cursor-move epilogue repeated in the status view's `gg`, `Down`,
`Up` and `Bottom` branches (ui/status.go lines 228-231, 278-281, 287-290,
296-299): fix the scroll and recompute the visual selection when visual
mode is on. -/
def moveCursorRefresh (m : StatusModel) : StatusModel :=
  let m' := ensureCursorVisible m
  if m'.visualMode then updateVisualSelection m' else m'

/-- The main key switch of `StatusModel.Update` (ui/status.go lines
241-377), reached after the mode guards and the `gg` bookkeeping; `m` has
`lastKey` already cleared.  The `remotes` argument is the result of the
synchronous `git.GetRemotes()` call made in the `Keys.Push` branch (line
334), `Except` error text or the remote list.  Commands returned to
bubbletea only run external git operations and are not part of the model
state. -/
def statusKeySwitch (m : StatusModel) (key : GoStr)
    (remotes : Except GoStr (List GoStr)) : StatusModel :=
  if key = Keys.Quit then
    if m.visualMode then { m with visualMode := false, selected := ∅ }
    else { m with quitting := true }
  else if key = "esc".toList then
    if m.visualMode ∨ 0 < m.selected.card then
      { m with visualMode := false, selected := ∅ }
    else { m with quitting := true }
  else if key = Keys.Help then
    { m with showHelp := true }
  else if key = Keys.VerboseHelp then
    { m with showVerboseHelp := !m.showVerboseHelp }
  else if key = Keys.Visual ∨ key = "V".toList then
    if m.visualMode ∧ key = Keys.Visual then
      { m with visualMode := false, selected := ∅ }
    else if !m.visualMode then
      { m with visualMode := true, visualStart := m.cursor, selected := {m.cursor} }
    else m
  else if key = Keys.Down ∨ key = "down".toList then
    if m.items.length ≠ 0 then
      moveCursorRefresh { m with cursor := min (m.cursor + 1) (m.items.length - 1) }
    else m
  else if key = Keys.Up ∨ key = "up".toList then
    if m.items.length ≠ 0 then
      moveCursorRefresh { m with cursor := m.cursor - 1 }
    else m
  else if key = Keys.Bottom then
    if m.items.length ≠ 0 then
      moveCursorRefresh { m with cursor := m.items.length - 1 }
    else m
  else if key = Keys.Select ∨ key = "left".toList then
    if m.items.length ≠ 0 ∧ !m.visualMode then
      if m.cursor ∈ m.selected then { m with selected := m.selected.erase m.cursor }
      else { m with selected := insert m.cursor m.selected }
    else m
  else if key = " ".toList then m
  else if key = Keys.Stage then m
  else if key = Keys.StageAll then m
  else if key = Keys.Unstage then m
  else if key = Keys.UnstageAll then m
  else if key = Keys.Discard then
    if m.items.length ≠ 0 ∧ (0 < m.selected.card ∨ !m.visualMode) then
      { m with confirmMode := ConfirmAction.confirmDiscard }
    else m
  else if key = Keys.Push then
    if m.branchStatus.Remote ≠ [] ∧ 0 < m.branchStatus.Ahead then
      { m with confirmMode := ConfirmAction.confirmPush }
    else if m.branchStatus.Remote = [] then
      match remotes with
      | Except.error e => { m with err := some e }
      | Except.ok rs =>
        if rs.length = 0 then { m with err := some ("no remotes configured".toList) }
        else { m with pendingPushRemote := rs.getD 0 [],
                      confirmMode := ConfirmAction.confirmPushNew }
    else m
  else if key = Keys.Commit then
    match m.status with
    | some st => if st.Staged.length ≠ 0 then { m with commitMode := true } else m
    | none => m
  else if key = Keys.CommitEdit then
    { m with quitting := true }
  else if key = Keys.Stash then
    if m.items.length ≠ 0 then { m with stashMode := StashMode.stashFiles } else m
  else if key = Keys.StashAll then
    if m.items.length ≠ 0 then { m with stashMode := StashMode.stashAll } else m
  else m

/-- The `tea.KeyMsg` case of `StatusModel.Update` (ui/status.go lines
104-377): the help/confirm/stash/commit mode guards, the `gg`
double-key bookkeeping, then the main switch. -/
def statusKeyUpdate (m : StatusModel) (key : GoStr)
    (remotes : Except GoStr (List GoStr)) : StatusModel :=
  if m.showHelp then
    if key = Keys.Help ∨ key = "esc".toList ∨ key = Keys.Quit then
      { m with showHelp := false }
    else m
  else if m.confirmMode ≠ ConfirmAction.confirmNone then
    if m.confirmMode = ConfirmAction.confirmDiscard ∨
        m.confirmMode = ConfirmAction.confirmStash then
      if key = "backspace".toList then
        if m.confirmInput ≠ [] then { m with confirmInput := m.confirmInput.dropLast } else m
      else if key = "enter".toList then
        if m.confirmInput = "yes".toList then
          let m' := { m with confirmMode := ConfirmAction.confirmNone, confirmInput := [] }
          if m.confirmMode = ConfirmAction.confirmStash then
            { m' with pendingStashMode := StashMode.stashNone, pendingStashMessage := [] }
          else m'
        else m
      else if key = "esc".toList then
        { m with confirmMode := ConfirmAction.confirmNone, confirmInput := [],
                 pendingStashMode := StashMode.stashNone, pendingStashMessage := [] }
      else
        if key.length = 1 ∧ 'a' ≤ key.getD 0 ' ' ∧ key.getD 0 ' ' ≤ 'z' then
          { m with confirmInput := m.confirmInput ++ key }
        else m
    else
      if key = "y".toList ∨ key = "Y".toList then
        { m with confirmMode := ConfirmAction.confirmNone, pendingPushRemote := [] }
      else if key = "n".toList ∨ key = "N".toList ∨ key = "esc".toList then
        { m with confirmMode := ConfirmAction.confirmNone, pendingPushRemote := [] }
      else m
  else if m.stashMode ≠ StashMode.stashNone then
    if key = "enter".toList then
      { m with pendingStashMode := m.stashMode,
               pendingStashMessage := m.stashInput,
               stashMode := StashMode.stashNone, stashInput := [],
               confirmMode := ConfirmAction.confirmStash }
    else if key = "esc".toList then
      { m with stashMode := StashMode.stashNone, stashInput := [] }
    else
      { m with stashInput := textinputUpdate m.stashInput key }
  else if m.commitMode then
    if key = "enter".toList then
      { m with commitMode := false, commitInput := [] }
    else if key = "esc".toList then
      { m with commitMode := false, commitInput := [] }
    else
      { m with commitInput := textinputUpdate m.commitInput key }
  else if m.lastKey = Keys.Top ∧ key = Keys.Top then
    moveCursorRefresh { m with lastKey := [], cursor := 0 }
  else if key = Keys.Top then
    { m with lastKey := Keys.Top }
  else
    statusKeySwitch { m with lastKey := [] } key remotes

/-- The `DiffModel` (ui/diff.go lines 13-28), restricted to the fields touched
by key handling; `diff` and `filterFiles` only feed the refresh commands. -/
structure DiffModel where
  hunks : List Hunk
  cursor : Nat
  listScrollOffset : Nat
  viewingHunk : Bool
  scrollOffset : Nat
  showHelp : Bool
  confirmMode : Bool
  confirmInput : GoStr
  lastKey : GoStr
  err : Option GoStr
  width : Nat
  height : Nat

/-- The `DiffModel.visibleLines` (ui/diff.go lines 320-326). -/
def DiffModel.visibleLines (m : DiffModel) : Nat :=
  if m.height ≤ 5 then 40 else m.height - 5

/-- The `DiffModel.visibleHunkListLines` (ui/diff.go lines 329-342). -/
def DiffModel.visibleHunkListLines (m : DiffModel) : Nat :=
  let reserved := 15
  if m.height ≤ reserved then 10
  else
    let available := (m.height - reserved) / 3
    if available < 5 then 5 else available

/-- The `DiffModel.ensureHunkCursorVisible` (ui/diff.go lines 345-372). -/
def ensureHunkCursorVisible (m : DiffModel) : DiffModel :=
  { m with listScrollOffset :=
      clampedScrollOffset m.cursor m.listScrollOffset m.hunks.length m.visibleHunkListLines }

/-- The hunk-list key switch of `DiffModel.Update` (ui/diff.go lines
195-237), reached with `lastKey` already cleared. -/
def diffKeySwitch (m : DiffModel) (key : GoStr) : DiffModel :=
  if key = Keys.Quit then m
  else if key = Keys.Help then
    { m with showHelp := true }
  else if key = Keys.Right ∨ key = "right".toList ∨ key = "enter".toList then
    if m.hunks.length ≠ 0 ∧ m.cursor < m.hunks.length then
      { m with viewingHunk := true, scrollOffset := 0 }
    else m
  else if key = Keys.Down ∨ key = "down".toList then
    if m.hunks.length ≠ 0 then
      ensureHunkCursorVisible { m with cursor := min (m.cursor + 1) (m.hunks.length - 1) }
    else m
  else if key = Keys.Up ∨ key = "up".toList then
    if m.hunks.length ≠ 0 then
      ensureHunkCursorVisible { m with cursor := m.cursor - 1 }
    else m
  else if key = Keys.Bottom then
    if m.hunks.length ≠ 0 then
      ensureHunkCursorVisible { m with cursor := m.hunks.length - 1 }
    else m
  else if key = " ".toList then m
  else if key = Keys.Stage then m
  else if key = Keys.Unstage then m
  else if key = Keys.Discard then
    if m.hunks.length ≠ 0 ∧ m.cursor < m.hunks.length ∧
        !(m.hunks.getD m.cursor default).Staged then
      { m with confirmMode := true }
    else m
  else m

/-- The `tea.KeyMsg` case of `DiffModel.Update` (ui/diff.go lines 86-237).
`maxScroll` is a Go int `len(lines) - visibleLines`; `maxScroll > 0` holds
iff the truncated `Nat` difference is positive, and then both agree. -/
def diffKeyUpdate (m : DiffModel) (key : GoStr) : DiffModel :=
  if m.showHelp then
    if key = Keys.Help ∨ key = "esc".toList ∨ key = Keys.Quit then
      { m with showHelp := false }
    else m
  else if m.confirmMode then
    if key = "backspace".toList then
      if m.confirmInput ≠ [] then { m with confirmInput := m.confirmInput.dropLast } else m
    else if key = "enter".toList then
      if m.confirmInput = "yes".toList then
        { m with confirmMode := false, confirmInput := [] }
      else m
    else if key = "esc".toList then
      { m with confirmMode := false, confirmInput := [] }
    else
      if key.length = 1 ∧ 'a' ≤ key.getD 0 ' ' ∧ key.getD 0 ' ' ≤ 'z' then
        { m with confirmInput := m.confirmInput ++ key }
      else m
  else if m.viewingHunk then
    if key = Keys.Left ∨ key = "left".toList ∨ key = "esc".toList then
      { m with viewingHunk := false, scrollOffset := 0 }
    else if key = Keys.Down ∨ key = "down".toList then
      if m.cursor < m.hunks.length then
        let maxScroll := (m.hunks.getD m.cursor default).Lines.length - m.visibleLines
        if 0 < maxScroll then { m with scrollOffset := min (m.scrollOffset + 1) maxScroll }
        else m
      else m
    else if key = Keys.Up ∨ key = "up".toList then
      { m with scrollOffset := m.scrollOffset - 1 }
    else if key = Keys.Top then
      if m.lastKey = Keys.Top then { m with lastKey := [], scrollOffset := 0 }
      else { m with lastKey := Keys.Top }
    else if key = Keys.Bottom then
      if m.cursor < m.hunks.length then
        let maxScroll := (m.hunks.getD m.cursor default).Lines.length - m.visibleLines
        if 0 < maxScroll then { m with scrollOffset := maxScroll } else m
      else m
    else if key = " ".toList then m
    else if key = Keys.Stage then m
    else if key = Keys.Unstage then m
    else if key = Keys.Discard then
      if m.hunks.length ≠ 0 ∧ m.cursor < m.hunks.length ∧
          !(m.hunks.getD m.cursor default).Staged then
        { m with confirmMode := true }
      else m
    else if key = Keys.Quit then m
    else if key = Keys.Help then
      { m with showHelp := true }
    else { m with lastKey := [] }
  else if m.lastKey = Keys.Top ∧ key = Keys.Top then
    ensureHunkCursorVisible { m with lastKey := [], cursor := 0 }
  else if key = Keys.Top then
    { m with lastKey := Keys.Top }
  else
    diffKeySwitch { m with lastKey := [] } key

/-- The `StashDiffModel` (ui/stashes.go lines 13-23), `diff` omitted as above. -/
structure StashDiffModel where
  hunks : List Hunk
  cursor : Nat
  viewingHunk : Bool
  scrollOffset : Nat
  showHelp : Bool
  err : Option GoStr
  width : Nat
  height : Nat

/-- The `StashDiffModel.visibleLines` (ui/stashes.go lines 141-146). -/
def StashDiffModel.visibleLines (m : StashDiffModel) : Nat :=
  if m.height ≤ 5 then 40 else m.height - 5

/-- The `tea.KeyMsg` case of `StashDiffModel.Update` (ui/stashes.go lines
39-115).  Note that in the hunk-list mode the `Keys.Top` case sets the
cursor to 0 immediately (lines 112-114); this view has no `lastKey`
field and no double-key sequence. -/
def stashDiffKeyUpdate (m : StashDiffModel) (key : GoStr) : StashDiffModel :=
  if m.showHelp then
    if key = Keys.Help ∨ key = "esc".toList ∨ key = Keys.Quit then
      { m with showHelp := false }
    else m
  else if m.viewingHunk then
    if key = Keys.Left ∨ key = "left".toList ∨ key = "esc".toList then
      { m with viewingHunk := false, scrollOffset := 0 }
    else if key = Keys.Down ∨ key = "down".toList then
      if m.cursor < m.hunks.length then
        let maxScroll := (m.hunks.getD m.cursor default).Lines.length - m.visibleLines
        if 0 < maxScroll then { m with scrollOffset := min (m.scrollOffset + 1) maxScroll }
        else m
      else m
    else if key = Keys.Up ∨ key = "up".toList then
      { m with scrollOffset := m.scrollOffset - 1 }
    else if key = Keys.Bottom then
      if m.cursor < m.hunks.length then
        let maxScroll := (m.hunks.getD m.cursor default).Lines.length - m.visibleLines
        if 0 < maxScroll then { m with scrollOffset := maxScroll } else m
      else m
    else if key = Keys.Top then
      { m with scrollOffset := 0 }
    else if key = Keys.Help then
      { m with showHelp := true }
    else m
  else
    if key = Keys.Help then
      { m with showHelp := true }
    else if key = Keys.Right ∨ key = "right".toList then
      if m.hunks.length ≠ 0 ∧ m.cursor < m.hunks.length then
        { m with viewingHunk := true, scrollOffset := 0 }
      else m
    else if key = Keys.Down ∨ key = "down".toList then
      if m.hunks.length ≠ 0 then
        { m with cursor := min (m.cursor + 1) (m.hunks.length - 1) }
      else m
    else if key = Keys.Up ∨ key = "up".toList then
      if m.hunks.length ≠ 0 then { m with cursor := m.cursor - 1 } else m
    else if key = Keys.Bottom then
      if m.hunks.length ≠ 0 then { m with cursor := m.hunks.length - 1 } else m
    else if key = Keys.Top then
      { m with cursor := 0 }
    else m

/-- A stash entry (stash.go, `Stash`). -/
structure Stash where
  Index : Nat
  Message : GoStr
  Branch : GoStr
  Date : GoStr
  deriving DecidableEq, Repr, Inhabited

/-- The `StashesModel` (ui/stashes.go lines 317-330), without the embedded
`diffModel` (updated only by `stashDiffMsg`). -/
structure StashesModel where
  stashes : List Stash
  cursor : Nat
  scrollOffset : Nat
  showHelp : Bool
  showVerboseHelp : Bool
  confirmMode : Bool
  confirmAction : GoStr
  lastKey : GoStr
  err : Option GoStr
  width : Nat
  height : Nat

/-- The `StashesModel.visibleLines` (ui/stashes.go lines 527-537). -/
def StashesModel.visibleLines (m : StashesModel) : Nat :=
  let reserved := if m.showVerboseHelp then 8 + 3 else 8
  if m.height ≤ reserved then 10 else m.height - reserved

/-- The `StashesModel.ensureCursorVisible` (ui/stashes.go lines 540-567). -/
def stashesEnsureCursorVisible (m : StashesModel) : StashesModel :=
  { m with scrollOffset :=
      clampedScrollOffset m.cursor m.scrollOffset m.stashes.length m.visibleLines }

/-- The main key switch of `StashesModel.Update` (ui/stashes.go lines
407-452), reached with `lastKey` already cleared. -/
def stashesKeySwitch (m : StashesModel) (key : GoStr) : StashesModel :=
  if key = Keys.Help then
    { m with showHelp := true }
  else if key = Keys.VerboseHelp then
    { m with showVerboseHelp := !m.showVerboseHelp }
  else if key = Keys.Down ∨ key = "down".toList then
    if m.stashes.length ≠ 0 then
      stashesEnsureCursorVisible { m with cursor := min (m.cursor + 1) (m.stashes.length - 1) }
    else m
  else if key = Keys.Up ∨ key = "up".toList then
    if m.stashes.length ≠ 0 then
      stashesEnsureCursorVisible { m with cursor := m.cursor - 1 }
    else m
  else if key = Keys.Bottom then
    if m.stashes.length ≠ 0 then
      stashesEnsureCursorVisible { m with cursor := m.stashes.length - 1 }
    else m
  else if key = "a".toList then m
  else if key = "p".toList then
    if m.stashes.length ≠ 0 ∧ m.cursor < m.stashes.length then
      { m with confirmMode := true, confirmAction := "pop".toList }
    else m
  else if key = "d".toList then
    if m.stashes.length ≠ 0 ∧ m.cursor < m.stashes.length then
      { m with confirmMode := true, confirmAction := "drop".toList }
    else m
  else m

/-- The `tea.KeyMsg` case of `StashesModel.Update` (ui/stashes.go lines
358-452). -/
def stashesKeyUpdate (m : StashesModel) (key : GoStr) : StashesModel :=
  if m.showHelp then
    if key = Keys.Help ∨ key = "esc".toList ∨ key = Keys.Quit then
      { m with showHelp := false }
    else m
  else if m.confirmMode then
    if key = "y".toList ∨ key = "Y".toList then
      { m with confirmMode := false, confirmAction := [] }
    else if key = "n".toList ∨ key = "N".toList ∨ key = "esc".toList then
      { m with confirmMode := false, confirmAction := [] }
    else m
  else if m.lastKey = Keys.Top ∧ key = Keys.Top then
    stashesEnsureCursorVisible { m with lastKey := [], cursor := 0 }
  else if key = Keys.Top then
    { m with lastKey := Keys.Top }
  else
    stashesKeySwitch { m with lastKey := [] } key

/-- A branch (branch.go, `Branch`). -/
structure Branch where
  Name : GoStr
  IsCurrent : Bool
  IsRemote : Bool
  Upstream : GoStr
  Ahead : Int
  Behind : Int
  LastCommit : GoStr
  deriving DecidableEq, Repr

instance : Inhabited Branch :=
  ⟨{ Name := [], IsCurrent := false, IsRemote := false, Upstream := [],
     Ahead := 0, Behind := 0, LastCommit := [] }⟩

/-- The `BranchesModel` (ui/branches.go lines 14-28); textinputs as values. -/
structure BranchesModel where
  branches : List Branch
  cursor : Nat
  showHelp : Bool
  inputMode : Bool
  deleteConfirmMode : Bool
  forceDeleteMode : Bool
  pendingDeleteBranch : GoStr
  branchInput : GoStr
  deleteInput : GoStr
  lastKey : GoStr
  err : Option GoStr
  width : Nat
  height : Nat

/-- The main key switch of `BranchesModel.Update` (ui/branches.go lines
152-196), reached with `lastKey` already cleared. -/
def branchesKeySwitch (m : BranchesModel) (key : GoStr) : BranchesModel :=
  if key = Keys.Help then
    { m with showHelp := true }
  else if key = Keys.Down ∨ key = "down".toList then
    if m.branches.length ≠ 0 then
      { m with cursor := min (m.cursor + 1) (m.branches.length - 1) }
    else m
  else if key = Keys.Up ∨ key = "up".toList then
    if m.branches.length ≠ 0 then { m with cursor := m.cursor - 1 } else m
  else if key = Keys.Bottom then
    if m.branches.length ≠ 0 then { m with cursor := m.branches.length - 1 } else m
  else if key = Keys.Right ∨ key = "right".toList ∨ key = "enter".toList then
    m
  else if key = Keys.NewBranch then
    { m with inputMode := true }
  else if key = Keys.Delete then
    if m.branches.length ≠ 0 ∧ m.cursor < m.branches.length ∧
        !(m.branches.getD m.cursor default).IsCurrent then
      { m with deleteConfirmMode := true }
    else m
  else m

/-- The `tea.KeyMsg` case of `BranchesModel.Update` (ui/branches.go lines
62-196). -/
def branchesKeyUpdate (m : BranchesModel) (key : GoStr) : BranchesModel :=
  if m.showHelp then
    if key = Keys.Help ∨ key = "esc".toList ∨ key = Keys.Quit then
      { m with showHelp := false }
    else m
  else if m.deleteConfirmMode then
    if key = "enter".toList then
      { m with deleteConfirmMode := false, deleteInput := [] }
    else if key = "esc".toList then
      { m with deleteConfirmMode := false, deleteInput := [] }
    else
      { m with deleteInput := textinputUpdate m.deleteInput key }
  else if m.forceDeleteMode then
    if key = "y".toList ∨ key = "Y".toList then
      { m with forceDeleteMode := false, err := none }
    else if key = "n".toList ∨ key = "N".toList ∨ key = "esc".toList then
      { m with forceDeleteMode := false, pendingDeleteBranch := [], err := none }
    else m
  else if m.inputMode then
    if key = "enter".toList then
      { m with inputMode := false, branchInput := [] }
    else if key = "esc".toList then
      { m with inputMode := false, branchInput := [] }
    else
      { m with branchInput := textinputUpdate m.branchInput key }
  else if m.lastKey = Keys.Top ∧ key = Keys.Top then
    { m with lastKey := [], cursor := 0 }
  else if key = Keys.Top then
    { m with lastKey := Keys.Top }
  else
    branchesKeySwitch { m with lastKey := [] } key

/-- The messages a branch mutation command can produce
(ui/messages: `branchesMsg` is the refresh result, `branchDeleteFailedMsg`
carries the branch name and error, `errMsg` a plain error). -/
inductive BranchMsg where
  | refreshBranches
  | branchDeleteFailed (branchName : GoStr) (err : GoStr)
  | errorMsg (err : GoStr)
  deriving DecidableEq, Repr

/-- The message produced by the command closure of
`BranchesModel.doDeleteBranch` (ui/branches.go lines 256-266) given the
outcome of `git.DeleteBranch` (`none` for success, `some e` for an error
with text `e`). -/
def doDeleteBranchMsg (branchName : GoStr) (deleteResult : Option GoStr) : BranchMsg :=
  match deleteResult with
  | some e =>
    if goContains e ("not fully merged".toList) then
      BranchMsg.branchDeleteFailed branchName e
    else BranchMsg.errorMsg e
  | none => BranchMsg.refreshBranches

/-- The `branchDeleteFailedMsg` and `errMsg` cases of
`BranchesModel.Update` (ui/branches.go lines 217-226); a refresh result is
handled by the separate `branchesMsg` case and leaves these fields alone. -/
def branchesHandleMsg (m : BranchesModel) (msg : BranchMsg) : BranchesModel :=
  match msg with
  | BranchMsg.branchDeleteFailed name e =>
    { m with err := some e, pendingDeleteBranch := name, forceDeleteMode := true }
  | BranchMsg.errorMsg e => { m with err := some e }
  | BranchMsg.refreshBranches => m

/-! Well-formedness facts that every value produced by `parseDiff`
satisfies; they drive the patch round-trip theorem. -/

/-- Invariants of a stored diff line: the parser only stores a line as hunk
content when it starts neither a new file nor a new hunk, its tag is the
leading-character classification, and split lines never contain a newline. -/
def DiffLineOK (dl : DiffLine) : Prop :=
  goStartsWith dl.Content diffGitLit = false ∧
  goStartsWith dl.Content atatLit = false ∧
  dl.type = classifyType dl.Content ∧
  '\n' ∉ dl.Content

/-- Invariants of a parsed hunk. -/
def HunkOK (h : Hunk) : Prop :=
  goStartsWith h.Header atatLit = true ∧
  '\n' ∉ h.Header ∧
  ∀ dl ∈ h.Lines, DiffLineOK dl

/-- Invariants of a parsed file diff: the header starts with the
`diff --git` line followed by recognised file-header lines. -/
def FileDiffOK (f : FileDiff) : Prop :=
  (∃ h0 t, f.Header = h0 :: t ∧ goStartsWith h0 diffGitLit = true ∧
    '\n' ∉ h0 ∧ ∀ l ∈ t, isFileHeaderLine l = true ∧ '\n' ∉ l) ∧
  ∀ hk ∈ f.Hunks, HunkOK hk

/-! Concrete values used by the witnesses and counterexamples. -/

/-- A two-line unified diff with a one-line hunk. -/
def exDiffText : GoStr := "diff --git a/f b/f\n@@ -1 +1 @@\n+x".toList

/-- The hunk `parseDiff` produces from `exDiffText`. -/
def exHunk : Hunk :=
  { Header := "@@ -1 +1 @@".toList,
    Lines := [{ type := LineType.LineAdded, Content := "+x".toList }],
    StartOld := 1, CountOld := 1, StartNew := 1, CountNew := 1,
    FilePath := "f".toList, FileIndex := 0, HunkIndex := 0, Staged := false }

/-- The file diff `parseDiff` produces from `exDiffText`. -/
def exFileDiff : FileDiff :=
  { Path := "f".toList, Hunks := [exHunk],
    Header := ["diff --git a/f b/f".toList] }

/-- The result `parseDiff` produces from `exDiffText`. -/
def exDiffResult : DiffResult := { Files := [exFileDiff] }

/-- A status item for witnesses. -/
def exItem (c : Char) : StatusItem :=
  { File := { Path := [c], DisplayPath := [c], IndexStatus := 'M',
              WorkStatus := ' ', OriginalPath := [], OriginalDisplayPath := [] },
    Section := "staged".toList }

/-- A status model with three items, the first selected, cursor on the
second. -/
def exStatusModel : StatusModel :=
  { NewStatusModelWithHelp false with
    items := [exItem 'a', exItem 'b', exItem 'c'],
    cursor := 1, selected := {0} }

/-- A stash-diff model in hunk-list mode with the cursor away from the
top. -/
def exStashDiffModel : StashDiffModel :=
  { hunks := [exHunk, exHunk, exHunk], cursor := 2, viewingHunk := false,
    scrollOffset := 0, showHelp := false, err := none, width := 80, height := 24 }

/-- A diff model in hunk-list mode. -/
def exDiffModel : DiffModel :=
  { hunks := [exHunk, exHunk, exHunk], cursor := 2, listScrollOffset := 0,
    viewingHunk := false, scrollOffset := 0, showHelp := false,
    confirmMode := false, confirmInput := [], lastKey := [], err := none,
    width := 80, height := 24 }

/-- A branches model in plain navigation mode. -/
def exBranchesModel : BranchesModel :=
  { branches := [], cursor := 2, showHelp := false, inputMode := false,
    deleteConfirmMode := false, forceDeleteMode := false,
    pendingDeleteBranch := [], branchInput := [], deleteInput := [],
    lastKey := [], err := none, width := 80, height := 24 }

/-- A stashes model in plain navigation mode. -/
def exStashesModel : StashesModel :=
  { stashes := [], cursor := 2, scrollOffset := 0, showHelp := false,
    showVerboseHelp := false, confirmMode := false, confirmAction := [],
    lastKey := [], err := none, width := 80, height := 24 }

/-- A delete error carrying the unmerged-branch signal. -/
def exMergeErr : GoStr := "branch is not fully merged".toList

/-- A delete error without the unmerged-branch signal. -/
def exOtherErr : GoStr := "branch not found".toList

/-- The loop invariant of `keepHunkOrder`: picked indices are distinct
indices of the new list, `used` is exactly their set, and the pending
per-key index lists only hold indices of the new list. -/
def KOInv (n : ℕ) (st : KOState) : Prop :=
  st.ordered.Nodup ∧ (∀ i ∈ st.ordered, i < n) ∧
  st.used = st.ordered.toFinset ∧ (∀ k, ∀ i ∈ st.ibk k, i < n)

/-- The queue invariant of `keepHunkOrder`: every index pending in a
per-key list points at a new hunk whose stable key is that key (true of
`buildIndexByKey` and preserved, the loop only pops queue fronts). -/
def KOKeysInv (newHunks : List Hunk) (st : KOState) : Prop :=
  ∀ k, ∀ i ∈ st.ibk k, hunkStableKey (newHunks.getD i default) = k

/-! Theorems. -/

/-- The `ensureCursorVisible` only moves the scroll offset. -/
theorem ensureCursorVisible_cursor (m : StatusModel) :
    (ensureCursorVisible m).cursor = m.cursor := rfl

/-- The `ensureCursorVisible` keeps the item list. -/
theorem ensureCursorVisible_items (m : StatusModel) :
    (ensureCursorVisible m).items = m.items := rfl

/-- The `ensureCursorVisible` keeps the selection. -/
theorem ensureCursorVisible_selected (m : StatusModel) :
    (ensureCursorVisible m).selected = m.selected := rfl

/-- The `ensureCursorVisible` keeps the visual-mode flag. -/
theorem ensureCursorVisible_visualMode (m : StatusModel) :
    (ensureCursorVisible m).visualMode = m.visualMode := rfl

/-- The `ensureCursorVisible` keeps the pending double-key prefix. -/
theorem ensureCursorVisible_lastKey (m : StatusModel) :
    (ensureCursorVisible m).lastKey = m.lastKey := rfl

/-- The `updateVisualSelection` keeps the cursor. -/
theorem updateVisualSelection_cursor (m : StatusModel) :
    (updateVisualSelection m).cursor = m.cursor := rfl

/-- The `updateVisualSelection` keeps the pending double-key prefix. -/
theorem updateVisualSelection_lastKey (m : StatusModel) :
    (updateVisualSelection m).lastKey = m.lastKey := rfl

/-- C3: for every FileStatus, `IsUntracked` holds iff both codes are `?`,
`IsStaged` iff the index code is neither space nor `?`, and `IsUnstaged`
iff the work-tree code is neither space nor `?`. -/
theorem fileStatus_predicate_characterisation (f : FileStatus) :
    (f.IsUntracked = true ↔ (f.IndexStatus = '?' ∧ f.WorkStatus = '?')) ∧
    (f.IsStaged = true ↔ (f.IndexStatus ≠ ' ' ∧ f.IndexStatus ≠ '?')) ∧
    (f.IsUnstaged = true ↔ (f.WorkStatus ≠ ' ' ∧ f.WorkStatus ≠ '?')) := by
  simp [FileStatus.IsUntracked, FileStatus.IsStaged, FileStatus.IsUnstaged]

/-- C5: after `updateVisualSelection`, an index is selected exactly when it
lies in the inclusive range between the visual anchor and the cursor. -/
theorem updateVisualSelection_range (m : StatusModel) (i : ℕ) :
    i ∈ (updateVisualSelection m).selected ↔
      (min m.visualStart m.cursor ≤ i ∧ i ≤ max m.visualStart m.cursor) := by
  unfold updateVisualSelection
  by_cases h : m.visualStart > m.cursor <;>
    simp [h, List.mem_range'] <;> constructor
  · rintro ⟨j, hj, rfl⟩
    omega
  · intro hi
    exact ⟨i - m.cursor, by omega, by omega⟩
  · rintro ⟨j, hj, rfl⟩
    omega
  · intro hi
    exact ⟨i - m.visualStart, by omega, by omega⟩

/-- C6: processing a `statusMsg` clears the selection and visual mode and
leaves the cursor inside `[0, max(0, L-1)]` for the freshly built item list
of length `L`. -/
theorem statusMsgUpdate_invariants (m : StatusModel) (st : Option StatusResult)
    (bs : BranchStatus) :
    (statusMsgUpdate m st bs).selected = ∅ ∧
    (statusMsgUpdate m st bs).visualMode = false ∧
    (statusMsgUpdate m st bs).items = buildItems st ∧
    ((statusMsgUpdate m st bs).cursor : ℤ) ≤
      max 0 (((statusMsgUpdate m st bs).items.length : ℤ) - 1) := by
  unfold statusMsgUpdate
  refine ⟨rfl, rfl, ?_, ?_⟩
  · simp only [ensureCursorVisible_items]
    by_cases h : (buildItems st).length ≤ m.cursor <;> simp [h]
  · simp only [ensureCursorVisible_cursor, ensureCursorVisible_items]
    by_cases h : (buildItems st).length ≤ m.cursor <;> simp [h] <;> omega

/-- C2 (failing input): on text whose first line is a hunk marker with no
preceding `diff --git` line, the parser hits the nil `currentFile`
dereference (modelled as `none`) instead of returning a best-effort
result. -/
theorem parseDiff_nil_deref_on_leading_hunk_marker :
    parseDiff ("@@ -1 +1 @@".toList) = none := rfl

/-- C7: a hunk header of the form `@@ -10,3 +10,5 @@` parses to
StartOld=10, CountOld=3, StartNew=10, CountNew=5, and `@@ -1 +1 @@` with
omitted counts parses to StartOld=1, CountOld=1, StartNew=1, CountNew=1. -/
theorem parseDiff_hunk_header_fields :
    ((parseDiff ("diff --git a/x b/x\n@@ -10,3 +10,5 @@\n q").toList).map
      (fun r => r.Files.map (fun f => f.Hunks.map (fun h =>
        (h.StartOld, h.CountOld, h.StartNew, h.CountNew)))) =
      some [[(10, 3, 10, 5)]]) ∧
    ((parseDiff ("diff --git a/x b/x\n@@ -1 +1 @@\n+q").toList).map
      (fun r => r.Files.map (fun f => f.Hunks.map (fun h =>
        (h.StartOld, h.CountOld, h.StartNew, h.CountNew)))) =
      some [[(1, 1, 1, 1)]]) := by
  exact ⟨rfl, rfl⟩

/-- Closed form of the selected-items fold over an arbitrary index list. -/
theorem getSelectedItemsLoop_general (m : StatusModel) (l : List ℕ)
    (acc : List StatusItem × Bool) :
    l.foldl
      (fun acc i =>
        if i ∈ m.selected then
          (acc.1 ++ [m.items.getD i default], acc.2 || decide (i = m.cursor))
        else acc) acc =
      (acc.1 ++ (l.filter (fun i => decide (i ∈ m.selected))).map
          (fun i => m.items.getD i default),
       acc.2 || l.any (fun i => decide (i ∈ m.selected) && decide (i = m.cursor))) := by
  induction l generalizing acc with
  | nil => simp
  | cons a t ih =>
    rw [List.foldl_cons]
    by_cases ha : a ∈ m.selected
    · rw [if_pos ha, ih]
      simp [ha, Bool.or_assoc]
    · rw [if_neg ha, ih]
      simp [ha]

/-- Closed form of `getSelectedItemsLoop`. -/
theorem getSelectedItemsLoop_eq (m : StatusModel) :
    getSelectedItemsLoop m =
      (((List.range m.items.length).filter (fun i => decide (i ∈ m.selected))).map
          (fun i => m.items.getD i default),
        decide (m.cursor < m.items.length ∧ m.cursor ∈ m.selected)) := by
  unfold getSelectedItemsLoop
  rw [getSelectedItemsLoop_general]
  have hsnd : ((List.range m.items.length).any
      (fun i => decide (i ∈ m.selected) && decide (i = m.cursor))) =
      decide (m.cursor < m.items.length ∧ m.cursor ∈ m.selected) := by
    rw [Bool.eq_iff_iff]
    simp only [List.any_eq_true, List.mem_range, Bool.and_eq_true,
      decide_eq_true_iff]
    constructor
    · rintro ⟨i, hlt, hsel, rfl⟩
      exact ⟨hlt, hsel⟩
    · rintro ⟨hlt, hsel⟩
      exact ⟨m.cursor, hlt, hsel, rfl⟩
  rw [hsnd]
  simp

/-- C4: the effective target set of a mutating status action: with a
non-empty selection it is every selected item plus the cursor's item; with
an empty selection it is exactly the cursor's item. -/
theorem getSelectedItems_targets (m : StatusModel)
    (hne : 0 < m.items.length) (hcur : m.cursor < m.items.length) :
    (0 < m.selected.card →
      ∀ x, x ∈ getSelectedItems m ↔
        ((∃ i ∈ m.selected, i < m.items.length ∧ x = m.items.getD i default) ∨
          x = m.items.getD m.cursor default)) ∧
    (m.selected.card = 0 → getSelectedItems m = [m.items.getD m.cursor default]) := by
  constructor
  · intro hcard x
    unfold getSelectedItems
    rw [if_pos hcard, getSelectedItemsLoop_eq]
    by_cases hc : m.cursor ∈ m.selected
    · have hdec : decide (m.cursor < m.items.length ∧ m.cursor ∈ m.selected) = true := by
        simp [hcur, hc]
      rw [hdec]
      simp only [Bool.not_true, Bool.false_and, Bool.false_eq_true, if_false,
        List.mem_map, List.mem_filter, List.mem_range, decide_eq_true_iff]
      constructor
      · rintro ⟨i, ⟨hlt, hsel⟩, rfl⟩
        exact Or.inl ⟨i, hsel, hlt, rfl⟩
      · rintro (⟨i, hsel, hlt, rfl⟩ | rfl)
        · exact ⟨i, ⟨hlt, hsel⟩, rfl⟩
        · exact ⟨m.cursor, ⟨hcur, hc⟩, rfl⟩
    · have hdec : decide (m.cursor < m.items.length ∧ m.cursor ∈ m.selected) = false := by
        simp [hc]
      rw [hdec]
      simp only [Bool.not_false, Bool.true_and, decide_eq_true_eq]
      rw [if_pos hcur]
      simp only [List.mem_append, List.mem_singleton, List.mem_map,
        List.mem_filter, List.mem_range, decide_eq_true_iff]
      constructor
      · rintro (⟨i, ⟨hlt, hsel⟩, rfl⟩ | rfl)
        · exact Or.inl ⟨i, hsel, hlt, rfl⟩
        · exact Or.inr rfl
      · rintro (⟨i, hsel, hlt, rfl⟩ | rfl)
        · exact Or.inl ⟨i, ⟨hlt, hsel⟩, rfl⟩
        · exact Or.inr rfl
  · intro hcard
    unfold getSelectedItems
    rw [if_neg (by omega), if_pos hcur]

/-- C4 witness: in the concrete model with items a, b, c, item 0 selected
and the cursor on item 1, the target characterisation holds for item a. -/
theorem getSelectedItems_targets_witness :
    exItem 'a' ∈ getSelectedItems exStatusModel ↔
      ((∃ i ∈ exStatusModel.selected, i < exStatusModel.items.length ∧
          exItem 'a' = exStatusModel.items.getD i default) ∨
        exItem 'a' = exStatusModel.items.getD exStatusModel.cursor default) :=
  (getSelectedItems_targets exStatusModel (by decide) (by decide)).1
    (by decide) (exItem 'a')

/-- C9: a branch delete failure whose error text contains
"not fully merged" becomes a `branchDeleteFailedMsg`, which switches the
view into force-delete confirmation and records the branch name as
pending, while a delete failure without that signal is reported as an
ordinary error message. -/
theorem branchDelete_notFullyMerged_forceDelete (m : BranchesModel)
    (name e : GoStr) :
    (goContains e ("not fully merged".toList) = true →
      doDeleteBranchMsg name (some e) = BranchMsg.branchDeleteFailed name e ∧
      (branchesHandleMsg m (BranchMsg.branchDeleteFailed name e)).forceDeleteMode = true ∧
      (branchesHandleMsg m (BranchMsg.branchDeleteFailed name e)).pendingDeleteBranch = name ∧
      (branchesHandleMsg m (BranchMsg.branchDeleteFailed name e)).err = some e) ∧
    (goContains e ("not fully merged".toList) = false →
      doDeleteBranchMsg name (some e) = BranchMsg.errorMsg e ∧
      (branchesHandleMsg m (BranchMsg.errorMsg e)).forceDeleteMode = m.forceDeleteMode ∧
      (branchesHandleMsg m (BranchMsg.errorMsg e)).pendingDeleteBranch = m.pendingDeleteBranch ∧
      (branchesHandleMsg m (BranchMsg.errorMsg e)).err = some e) := by
  constructor
  · intro h
    refine ⟨?_, rfl, rfl, rfl⟩
    unfold doDeleteBranchMsg
    dsimp only
    rw [if_pos h]
  · intro h
    refine ⟨?_, rfl, rfl, rfl⟩
    unfold doDeleteBranchMsg
    dsimp only
    rw [if_neg (by rw [h]; exact Bool.false_ne_true)]

/-- C9 witness: both outcomes at concrete error texts. -/
theorem branchDelete_notFullyMerged_forceDelete_witness :
    doDeleteBranchMsg ("x".toList) (some exMergeErr) =
      BranchMsg.branchDeleteFailed ("x".toList) exMergeErr ∧
    (branchesHandleMsg exBranchesModel
      (BranchMsg.branchDeleteFailed ("x".toList) exMergeErr)).forceDeleteMode = true ∧
    doDeleteBranchMsg ("x".toList) (some exOtherErr) = BranchMsg.errorMsg exOtherErr :=
  ⟨((branchDelete_notFullyMerged_forceDelete exBranchesModel ("x".toList) exMergeErr).1
      (by decide)).1,
   ((branchDelete_notFullyMerged_forceDelete exBranchesModel ("x".toList) exMergeErr).1
      (by decide)).2.1,
   ((branchDelete_notFullyMerged_forceDelete exBranchesModel ("x".toList) exOtherErr).2
      (by decide)).1⟩

/-- One `koStep` preserves the invariant. -/
theorem koStep_inv (n : ℕ) (st : KOState) (h : Hunk) (hst : KOInv n st) :
    KOInv n (koStep st h) := by
  obtain ⟨hnd, hlt, hused, hibk⟩ := hst
  unfold koStep
  dsimp only
  cases hmatch : st.ibk (hunkStableKey h) with
  | nil => exact ⟨hnd, hlt, hused, hibk⟩
  | cons idx rest =>
    have hidx : idx ∈ st.ibk (hunkStableKey h) := by
      rw [hmatch]
      exact List.mem_cons_self idx rest
    have hidxn : idx < n := hibk _ idx hidx
    have hibk' : ∀ k, ∀ i ∈ (fun k =>
        if k = hunkStableKey h then rest else st.ibk k) k, i < n := by
      intro k i hi
      dsimp at hi
      by_cases hk : k = hunkStableKey h
      · rw [if_pos hk] at hi
        exact hibk _ i (by rw [hmatch]; exact List.mem_cons_of_mem idx hi)
      · rw [if_neg hk] at hi
        exact hibk _ i hi
    dsimp only
    by_cases hu : idx ∈ st.used
    · rw [if_pos hu]
      exact ⟨hnd, hlt, hused, hibk'⟩
    · rw [if_neg hu]
      refine ⟨?_, ?_, ?_, hibk'⟩
      · have hno : idx ∉ st.ordered := fun hmem => hu (hused ▸ List.mem_toFinset.2 hmem)
        simp [List.nodup_append, hnd, hno]
      · intro i hi
        rcases List.mem_append.1 hi with hi | hi
        · exact hlt i hi
        · rw [List.mem_singleton.1 hi]
          exact hidxn
      · rw [hused]
        ext a
        simp [or_comm]

/-- The fold over the previous hunks preserves the invariant. -/
theorem foldl_koStep_inv (n : ℕ) (prev : List Hunk) (st : KOState)
    (hst : KOInv n st) : KOInv n (prev.foldl koStep st) := by
  induction prev generalizing st with
  | nil => exact hst
  | cons h t ih => exact ih _ (koStep_inv n st h hst)

/-- Reading every position of a list back in order reproduces the list. -/
theorem range_map_getD {α : Type} (l : List α) (d : α) :
    (List.range l.length).map (fun i => l.getD i d) = l := by
  induction l with
  | nil => rfl
  | cons a t ih =>
    rw [List.length_cons, List.range_succ_eq_map, List.map_cons, List.map_map]
    refine congrArg (a :: ·) ?_
    calc (List.range t.length).map ((fun i => (a :: t).getD i d) ∘ Nat.succ)
        = (List.range t.length).map (fun i => t.getD i d) := by
          refine List.map_congr_left ?_
          intro i _
          rfl
      _ = t := ih

/-- Distinct in-range picks followed by the unpicked positions permute the
full index range. -/
theorem perm_picked_filter (n : ℕ) (ordered : List ℕ) (hnd : ordered.Nodup)
    (hlt : ∀ i ∈ ordered, i < n) :
    (ordered ++ (List.range n).filter
        (fun i => decide (i ∉ ordered.toFinset))).Perm (List.range n) := by
  rw [List.perm_iff_count]
  intro a
  rw [List.count_append]
  by_cases ha : a ∈ ordered
  · have h1 : ordered.count a = 1 := List.count_eq_one_of_mem hnd ha
    have h2 : ((List.range n).filter (fun i => decide (i ∉ ordered.toFinset))).count a = 0 := by
      rw [List.count_eq_zero]
      intro hmem
      rcases List.mem_filter.1 hmem with ⟨-, hdec⟩
      exact (decide_eq_true_iff.1 hdec) (List.mem_toFinset.2 ha)
    have h3 : (List.range n).count a = 1 :=
      List.count_eq_one_of_mem (List.nodup_range n) (List.mem_range.2 (hlt a ha))
    rw [h1, h2, h3]
  · have h1 : ordered.count a = 0 := List.count_eq_zero.2 ha
    rw [h1, Nat.zero_add, List.count_filter]
    simp [ha]

/-- The permutation half of the `keepHunkOrder` correctness: the output
is a permutation of the freshly fetched hunk list, every new hunk appears
exactly once, none dropped or duplicated, also when several hunks share a
stable key. -/
theorem keepHunkOrder_perm (prevHunks newHunks : List Hunk) :
    (keepHunkOrder prevHunks newHunks).Perm newHunks := by
  unfold keepHunkOrder
  have hinit : KOInv newHunks.length
      { ordered := [], used := ∅, ibk := buildIndexByKey newHunks } := by
    refine ⟨List.nodup_nil, by simp, by simp, ?_⟩
    intro k i hi
    unfold buildIndexByKey at hi
    exact List.mem_range.1 (List.mem_of_mem_filter hi)
  obtain ⟨hnd, hlt, hused, -⟩ :=
    foldl_koStep_inv newHunks.length prevHunks _ hinit
  have hperm := perm_picked_filter newHunks.length
      (prevHunks.foldl koStep
        { ordered := [], used := ∅, ibk := buildIndexByKey newHunks }).ordered hnd hlt
  have hmap := hperm.map (fun i => newHunks.getD i default)
  rw [range_map_getD] at hmap
  simp only [hused]
  exact hmap

/-- One `koStep` preserves the queue invariant. -/
theorem koStep_keysInv (newHunks : List Hunk) (st : KOState) (h : Hunk)
    (hq : KOKeysInv newHunks st) : KOKeysInv newHunks (koStep st h) := by
  unfold koStep
  dsimp only
  cases hmatch : st.ibk (hunkStableKey h) with
  | nil => exact hq
  | cons idx rest =>
    have hrest : ∀ k i, i ∈ (if k = (hunkStableKey h) then rest else st.ibk k) →
        hunkStableKey (newHunks.getD i default) = k := by
      intro k i hi
      by_cases hk : k = hunkStableKey h
      · rw [if_pos hk] at hi
        exact hq k i (by rw [hk, hmatch]; exact List.mem_cons_of_mem idx hi)
      · rw [if_neg hk] at hi
        exact hq k i hi
    dsimp only
    by_cases hu : idx ∈ st.used
    · rw [if_pos hu]
      exact hrest
    · rw [if_neg hu]
      exact hrest

/-- One `koStep` either leaves the picked index list unchanged or appends
exactly one index whose new hunk carries the processed previous hunk's
stable key. -/
theorem koStep_ordered_cases (newHunks : List Hunk) (st : KOState) (h : Hunk)
    (hq : KOKeysInv newHunks st) :
    (koStep st h).ordered = st.ordered ∨
    ∃ idx, (koStep st h).ordered = st.ordered ++ [idx] ∧
      hunkStableKey (newHunks.getD idx default) = hunkStableKey h := by
  unfold koStep
  dsimp only
  cases hmatch : st.ibk (hunkStableKey h) with
  | nil => exact Or.inl rfl
  | cons idx rest =>
    dsimp only
    by_cases hu : idx ∈ st.used
    · rw [if_pos hu]
      exact Or.inl rfl
    · rw [if_neg hu]
      refine Or.inr ⟨idx, rfl, ?_⟩
      exact hq _ idx (by rw [hmatch]; exact List.mem_cons_self idx rest)

/-- Over the whole first loop, the indices appended to the picked list
carry stable keys forming a subsequence of the previous list's key
sequence: picks happen in previous-list traversal order, one per matching
previous hunk. -/
theorem foldl_koStep_trace (newHunks prev : List Hunk) (st : KOState)
    (hq : KOKeysInv newHunks st) :
    KOKeysInv newHunks (prev.foldl koStep st) ∧
    ∃ app : List ℕ,
      (prev.foldl koStep st).ordered = st.ordered ++ app ∧
      (app.map (fun i => hunkStableKey (newHunks.getD i default))).Sublist
        (prev.map hunkStableKey) := by
  induction prev generalizing st with
  | nil => exact ⟨hq, [], by simp, by simp⟩
  | cons h t ih =>
    have hq' := koStep_keysInv newHunks st h hq
    obtain ⟨hqf, app, happ, hsub⟩ := ih (koStep st h) hq'
    rw [List.foldl_cons]
    refine ⟨hqf, ?_⟩
    rcases koStep_ordered_cases newHunks st h hq with hsame | ⟨idx, heq, hkey⟩
    · refine ⟨app, ?_, ?_⟩
      · rw [happ, hsame]
      · exact List.Sublist.cons _ hsub
    · refine ⟨idx :: app, ?_, ?_⟩
      · rw [happ, heq, List.append_assoc, List.singleton_append]
      · rw [List.map_cons, List.map_cons, hkey]
        exact List.Sublist.cons₂ _ hsub

/-- C10: `keepHunkOrder` returns a permutation of the freshly fetched hunk
list — every new hunk appears exactly once, none dropped or duplicated,
also when several hunks share a stable key — and the output is the matched
hunks first, followed by the unmatched hunks in fetch order: it splits as
the picked new hunks, whose stable keys form a subsequence of the previous
list's key sequence (one pick per matching previous hunk, in previous-list
traversal order), followed by the remaining new hunks in increasing
new-list position. -/
theorem keepHunkOrder_perm_and_order (prevHunks newHunks : List Hunk) :
    (keepHunkOrder prevHunks newHunks).Perm newHunks ∧
    ∃ picked : List ℕ,
      picked.Nodup ∧
      (∀ i ∈ picked, i < newHunks.length) ∧
      keepHunkOrder prevHunks newHunks
        = picked.map (fun i => newHunks.getD i default)
          ++ ((List.range newHunks.length).filter
              (fun i => i ∉ picked)).map (fun i => newHunks.getD i default) ∧
      (picked.map (fun i => hunkStableKey (newHunks.getD i default))).Sublist
        (prevHunks.map hunkStableKey) := by
  refine ⟨keepHunkOrder_perm prevHunks newHunks, ?_⟩
  have hinit : KOInv newHunks.length
      { ordered := [], used := ∅, ibk := buildIndexByKey newHunks } := by
    refine ⟨List.nodup_nil, by simp, by simp, ?_⟩
    intro k i hi
    unfold buildIndexByKey at hi
    exact List.mem_range.1 (List.mem_of_mem_filter hi)
  have hqinit : KOKeysInv newHunks
      { ordered := [], used := ∅, ibk := buildIndexByKey newHunks } := by
    intro k i hi
    unfold buildIndexByKey at hi
    exact of_decide_eq_true (List.mem_filter.1 hi).2
  obtain ⟨hnd, hlt, hused, -⟩ :=
    foldl_koStep_inv newHunks.length prevHunks _ hinit
  obtain ⟨-, app, happ, hsub⟩ := foldl_koStep_trace newHunks prevHunks _ hqinit
  rw [List.nil_append] at happ
  refine ⟨(prevHunks.foldl koStep
      { ordered := [], used := ∅, ibk := buildIndexByKey newHunks }).ordered,
    hnd, hlt, ?_, ?_⟩
  · unfold keepHunkOrder
    rw [List.map_append]
    refine congrArg _ (congrArg _ (List.filter_congr ?_))
    intro i _
    rw [hused]
    simp [List.mem_toFinset]
  · rw [happ]
    exact hsub

/-- The `ensureHunkCursorVisible` keeps the cursor. -/
theorem ensureHunkCursorVisible_cursor (m : DiffModel) :
    (ensureHunkCursorVisible m).cursor = m.cursor := rfl

/-- The `ensureHunkCursorVisible` keeps the pending double-key prefix. -/
theorem ensureHunkCursorVisible_lastKey (m : DiffModel) :
    (ensureHunkCursorVisible m).lastKey = m.lastKey := rfl

/-- The `StashesModel.ensureCursorVisible` keeps the cursor. -/
theorem stashesEnsureCursorVisible_cursor (m : StashesModel) :
    (stashesEnsureCursorVisible m).cursor = m.cursor := rfl

/-- The `StashesModel.ensureCursorVisible` keeps the pending double-key prefix. -/
theorem stashesEnsureCursorVisible_lastKey (m : StashesModel) :
    (stashesEnsureCursorVisible m).lastKey = m.lastKey := rfl

/-- The `moveCursorRefresh` keeps the cursor. -/
theorem moveCursorRefresh_cursor (m : StatusModel) :
    (moveCursorRefresh m).cursor = m.cursor := by
  unfold moveCursorRefresh
  dsimp only
  by_cases h : (ensureCursorVisible m).visualMode
  · rw [if_pos h, updateVisualSelection_cursor, ensureCursorVisible_cursor]
  · rw [if_neg h, ensureCursorVisible_cursor]

/-- The `moveCursorRefresh` keeps the pending double-key prefix. -/
theorem moveCursorRefresh_lastKey (m : StatusModel) :
    (moveCursorRefresh m).lastKey = m.lastKey := by
  unfold moveCursorRefresh
  dsimp only
  by_cases h : (ensureCursorVisible m).visualMode
  · rw [if_pos h, updateVisualSelection_lastKey, ensureCursorVisible_lastKey]
  · rw [if_neg h, ensureCursorVisible_lastKey]

/-- No branch of the status view's main key switch touches the pending
double-key prefix. -/
theorem statusKeySwitch_lastKey (m : StatusModel) (key : GoStr)
    (remotes : Except GoStr (List GoStr)) :
    (statusKeySwitch m key remotes).lastKey = m.lastKey := by
  unfold statusKeySwitch
  by_cases h1 : key = Keys.Quit
  · rw [if_pos h1]
    split_ifs <;> rfl
  rw [if_neg h1]
  by_cases h2 : key = "esc".toList
  · rw [if_pos h2]
    split_ifs <;> rfl
  rw [if_neg h2]
  by_cases h3 : key = Keys.Help
  · rw [if_pos h3]
  rw [if_neg h3]
  by_cases h4 : key = Keys.VerboseHelp
  · rw [if_pos h4]
  rw [if_neg h4]
  by_cases h5 : key = Keys.Visual ∨ key = "V".toList
  · rw [if_pos h5]
    split_ifs <;> rfl
  rw [if_neg h5]
  by_cases h6 : key = Keys.Down ∨ key = "down".toList
  · rw [if_pos h6]
    split_ifs <;> first
      | rfl
      | rw [moveCursorRefresh_lastKey]
  rw [if_neg h6]
  by_cases h7 : key = Keys.Up ∨ key = "up".toList
  · rw [if_pos h7]
    split_ifs <;> first
      | rfl
      | rw [moveCursorRefresh_lastKey]
  rw [if_neg h7]
  by_cases h8 : key = Keys.Bottom
  · rw [if_pos h8]
    split_ifs <;> first
      | rfl
      | rw [moveCursorRefresh_lastKey]
  rw [if_neg h8]
  by_cases h9 : key = Keys.Select ∨ key = "left".toList
  · rw [if_pos h9]
    split_ifs <;> rfl
  rw [if_neg h9]
  by_cases h10 : key = " ".toList
  · rw [if_pos h10]
  rw [if_neg h10]
  by_cases h11 : key = Keys.Stage
  · rw [if_pos h11]
  rw [if_neg h11]
  by_cases h12 : key = Keys.StageAll
  · rw [if_pos h12]
  rw [if_neg h12]
  by_cases h13 : key = Keys.Unstage
  · rw [if_pos h13]
  rw [if_neg h13]
  by_cases h14 : key = Keys.UnstageAll
  · rw [if_pos h14]
  rw [if_neg h14]
  by_cases h15 : key = Keys.Discard
  · rw [if_pos h15]
    split_ifs <;> rfl
  rw [if_neg h15]
  by_cases h16 : key = Keys.Push
  · rw [if_pos h16]
    cases remotes <;> try dsimp only
    all_goals split_ifs <;> rfl
  rw [if_neg h16]
  by_cases h17 : key = Keys.Commit
  · rw [if_pos h17]
    cases hst : m.status <;> try dsimp only
    all_goals first
      | rfl
      | (split_ifs <;> rfl)
  rw [if_neg h17]
  by_cases h18 : key = Keys.CommitEdit
  · rw [if_pos h18]
  rw [if_neg h18]
  by_cases h19 : key = Keys.Stash
  · rw [if_pos h19]
    split_ifs <;> rfl
  rw [if_neg h19]
  by_cases h20 : key = Keys.StashAll
  · rw [if_pos h20]
    split_ifs <;> rfl
  rw [if_neg h20]

/-- No branch of the diff view's hunk-list key switch touches the pending
double-key prefix. -/
theorem diffKeySwitch_lastKey (m : DiffModel) (key : GoStr) :
    (diffKeySwitch m key).lastKey = m.lastKey := by
  unfold diffKeySwitch
  by_cases h1 : key = Keys.Quit
  · rw [if_pos h1]
  rw [if_neg h1]
  by_cases h2 : key = Keys.Help
  · rw [if_pos h2]
  rw [if_neg h2]
  by_cases h3 : key = Keys.Right ∨ key = "right".toList ∨ key = "enter".toList
  · rw [if_pos h3]
    split_ifs <;> rfl
  rw [if_neg h3]
  by_cases h4 : key = Keys.Down ∨ key = "down".toList
  · rw [if_pos h4]
    split_ifs <;> rfl
  rw [if_neg h4]
  by_cases h5 : key = Keys.Up ∨ key = "up".toList
  · rw [if_pos h5]
    split_ifs <;> rfl
  rw [if_neg h5]
  by_cases h6 : key = Keys.Bottom
  · rw [if_pos h6]
    split_ifs <;> rfl
  rw [if_neg h6]
  by_cases h7 : key = " ".toList
  · rw [if_pos h7]
  rw [if_neg h7]
  by_cases h8 : key = Keys.Stage
  · rw [if_pos h8]
  rw [if_neg h8]
  by_cases h9 : key = Keys.Unstage
  · rw [if_pos h9]
  rw [if_neg h9]
  by_cases h10 : key = Keys.Discard
  · rw [if_pos h10]
    split_ifs <;> rfl
  rw [if_neg h10]

/-- No branch of the branches view's main key switch touches the pending
double-key prefix. -/
theorem branchesKeySwitch_lastKey (m : BranchesModel) (key : GoStr) :
    (branchesKeySwitch m key).lastKey = m.lastKey := by
  unfold branchesKeySwitch
  by_cases h1 : key = Keys.Help
  · rw [if_pos h1]
  rw [if_neg h1]
  by_cases h2 : key = Keys.Down ∨ key = "down".toList
  · rw [if_pos h2]
    split_ifs <;> rfl
  rw [if_neg h2]
  by_cases h3 : key = Keys.Up ∨ key = "up".toList
  · rw [if_pos h3]
    split_ifs <;> rfl
  rw [if_neg h3]
  by_cases h4 : key = Keys.Bottom
  · rw [if_pos h4]
    split_ifs <;> rfl
  rw [if_neg h4]
  by_cases h5 : key = Keys.Right ∨ key = "right".toList ∨ key = "enter".toList
  · rw [if_pos h5]
  rw [if_neg h5]
  by_cases h6 : key = Keys.NewBranch
  · rw [if_pos h6]
  rw [if_neg h6]
  by_cases h7 : key = Keys.Delete
  · rw [if_pos h7]
    split_ifs <;> rfl
  rw [if_neg h7]

/-- No branch of the stashes view's main key switch touches the pending
double-key prefix. -/
theorem stashesKeySwitch_lastKey (m : StashesModel) (key : GoStr) :
    (stashesKeySwitch m key).lastKey = m.lastKey := by
  unfold stashesKeySwitch
  by_cases h1 : key = Keys.Help
  · rw [if_pos h1]
  rw [if_neg h1]
  by_cases h2 : key = Keys.VerboseHelp
  · rw [if_pos h2]
  rw [if_neg h2]
  by_cases h3 : key = Keys.Down ∨ key = "down".toList
  · rw [if_pos h3]
    split_ifs <;> rfl
  rw [if_neg h3]
  by_cases h4 : key = Keys.Up ∨ key = "up".toList
  · rw [if_pos h4]
    split_ifs <;> rfl
  rw [if_neg h4]
  by_cases h5 : key = Keys.Bottom
  · rw [if_pos h5]
    split_ifs <;> rfl
  rw [if_neg h5]
  by_cases h6 : key = "a".toList
  · rw [if_pos h6]
  rw [if_neg h6]
  by_cases h7 : key = "p".toList
  · rw [if_pos h7]
    split_ifs <;> rfl
  rw [if_neg h7]
  by_cases h8 : key = "d".toList
  · rw [if_pos h8]
    split_ifs <;> rfl
  rw [if_neg h8]

/-- C8 (amended): in plain navigation mode the status, diff hunk list,
branches and stashes views follow the double-key jump-to-top discipline —
a first press of the key is only remembered and leaves the cursor alone, an
immediately repeated press moves the cursor to index 0, and any other key
clears the pending prefix — while the stash-diff view moves its cursor to
index 0 already on a single press of the key (it keeps no pending
prefix). -/
theorem views_jump_to_top_discipline
    (ms : StatusModel) (md : DiffModel) (mb : BranchesModel)
    (mst : StashesModel) (msd : StashDiffModel) (key : GoStr)
    (remotes : Except GoStr (List GoStr))
    (hs1 : ms.showHelp = false) (hs2 : ms.confirmMode = ConfirmAction.confirmNone)
    (hs3 : ms.stashMode = StashMode.stashNone) (hs4 : ms.commitMode = false)
    (hd1 : md.showHelp = false) (hd2 : md.confirmMode = false)
    (hd3 : md.viewingHunk = false)
    (hb1 : mb.showHelp = false) (hb2 : mb.deleteConfirmMode = false)
    (hb3 : mb.forceDeleteMode = false) (hb4 : mb.inputMode = false)
    (ht1 : mst.showHelp = false) (ht2 : mst.confirmMode = false)
    (hx1 : msd.showHelp = false) (hx2 : msd.viewingHunk = false) :
    ((ms.lastKey = Keys.Top ∧ key = Keys.Top) →
      (statusKeyUpdate ms key remotes).cursor = 0 ∧
      (statusKeyUpdate ms key remotes).lastKey = []) ∧
    ((ms.lastKey ≠ Keys.Top ∧ key = Keys.Top) →
      (statusKeyUpdate ms key remotes).cursor = ms.cursor ∧
      (statusKeyUpdate ms key remotes).lastKey = Keys.Top) ∧
    (key ≠ Keys.Top → (statusKeyUpdate ms key remotes).lastKey = []) ∧
    ((md.lastKey = Keys.Top ∧ key = Keys.Top) →
      (diffKeyUpdate md key).cursor = 0 ∧ (diffKeyUpdate md key).lastKey = []) ∧
    ((md.lastKey ≠ Keys.Top ∧ key = Keys.Top) →
      (diffKeyUpdate md key).cursor = md.cursor ∧
      (diffKeyUpdate md key).lastKey = Keys.Top) ∧
    (key ≠ Keys.Top → (diffKeyUpdate md key).lastKey = []) ∧
    ((mb.lastKey = Keys.Top ∧ key = Keys.Top) →
      (branchesKeyUpdate mb key).cursor = 0 ∧ (branchesKeyUpdate mb key).lastKey = []) ∧
    ((mb.lastKey ≠ Keys.Top ∧ key = Keys.Top) →
      (branchesKeyUpdate mb key).cursor = mb.cursor ∧
      (branchesKeyUpdate mb key).lastKey = Keys.Top) ∧
    (key ≠ Keys.Top → (branchesKeyUpdate mb key).lastKey = []) ∧
    ((mst.lastKey = Keys.Top ∧ key = Keys.Top) →
      (stashesKeyUpdate mst key).cursor = 0 ∧ (stashesKeyUpdate mst key).lastKey = []) ∧
    ((mst.lastKey ≠ Keys.Top ∧ key = Keys.Top) →
      (stashesKeyUpdate mst key).cursor = mst.cursor ∧
      (stashesKeyUpdate mst key).lastKey = Keys.Top) ∧
    (key ≠ Keys.Top → (stashesKeyUpdate mst key).lastKey = []) ∧
    (key = Keys.Top → (stashDiffKeyUpdate msd key).cursor = 0) := by
  refine ⟨?_, ?_, ?_, ?_, ?_, ?_, ?_, ?_, ?_, ?_, ?_, ?_, ?_⟩
  · rintro ⟨hlk, hk⟩
    unfold statusKeyUpdate
    rw [if_neg (by simp [hs1]), if_neg (by simp [hs2]), if_neg (by simp [hs3]),
      if_neg (by simp [hs4]), if_pos ⟨hlk, hk⟩]
    exact ⟨moveCursorRefresh_cursor _, moveCursorRefresh_lastKey _⟩
  · rintro ⟨hlk, hk⟩
    unfold statusKeyUpdate
    rw [if_neg (by simp [hs1]), if_neg (by simp [hs2]), if_neg (by simp [hs3]),
      if_neg (by simp [hs4]), if_neg (by rintro ⟨h1, -⟩; exact hlk h1),
      if_pos hk]
    exact ⟨rfl, rfl⟩
  · intro hk
    unfold statusKeyUpdate
    rw [if_neg (by simp [hs1]), if_neg (by simp [hs2]), if_neg (by simp [hs3]),
      if_neg (by simp [hs4]), if_neg (by rintro ⟨-, h2⟩; exact hk h2),
      if_neg hk, statusKeySwitch_lastKey]
  · rintro ⟨hlk, hk⟩
    unfold diffKeyUpdate
    rw [if_neg (by simp [hd1]), if_neg (by simp [hd2]), if_neg (by simp [hd3]),
      if_pos ⟨hlk, hk⟩]
    exact ⟨ensureHunkCursorVisible_cursor _, ensureHunkCursorVisible_lastKey _⟩
  · rintro ⟨hlk, hk⟩
    unfold diffKeyUpdate
    rw [if_neg (by simp [hd1]), if_neg (by simp [hd2]), if_neg (by simp [hd3]),
      if_neg (by rintro ⟨h1, -⟩; exact hlk h1), if_pos hk]
    exact ⟨rfl, rfl⟩
  · intro hk
    unfold diffKeyUpdate
    rw [if_neg (by simp [hd1]), if_neg (by simp [hd2]), if_neg (by simp [hd3]),
      if_neg (by rintro ⟨-, h2⟩; exact hk h2), if_neg hk, diffKeySwitch_lastKey]
  · rintro ⟨hlk, hk⟩
    unfold branchesKeyUpdate
    rw [if_neg (by simp [hb1]), if_neg (by simp [hb2]), if_neg (by simp [hb3]),
      if_neg (by simp [hb4]), if_pos ⟨hlk, hk⟩]
    exact ⟨rfl, rfl⟩
  · rintro ⟨hlk, hk⟩
    unfold branchesKeyUpdate
    rw [if_neg (by simp [hb1]), if_neg (by simp [hb2]), if_neg (by simp [hb3]),
      if_neg (by simp [hb4]), if_neg (by rintro ⟨h1, -⟩; exact hlk h1), if_pos hk]
    exact ⟨rfl, rfl⟩
  · intro hk
    unfold branchesKeyUpdate
    rw [if_neg (by simp [hb1]), if_neg (by simp [hb2]), if_neg (by simp [hb3]),
      if_neg (by simp [hb4]), if_neg (by rintro ⟨-, h2⟩; exact hk h2),
      if_neg hk, branchesKeySwitch_lastKey]
  · rintro ⟨hlk, hk⟩
    unfold stashesKeyUpdate
    rw [if_neg (by simp [ht1]), if_neg (by simp [ht2]), if_pos ⟨hlk, hk⟩]
    exact ⟨stashesEnsureCursorVisible_cursor _, stashesEnsureCursorVisible_lastKey _⟩
  · rintro ⟨hlk, hk⟩
    unfold stashesKeyUpdate
    rw [if_neg (by simp [ht1]), if_neg (by simp [ht2]),
      if_neg (by rintro ⟨h1, -⟩; exact hlk h1), if_pos hk]
    exact ⟨rfl, rfl⟩
  · intro hk
    unfold stashesKeyUpdate
    rw [if_neg (by simp [ht1]), if_neg (by simp [ht2]),
      if_neg (by rintro ⟨-, h2⟩; exact hk h2), if_neg hk, stashesKeySwitch_lastKey]
  · intro hk
    subst hk
    unfold stashDiffKeyUpdate
    rw [if_neg (by simp [hx1]), if_neg (by simp [hx2]),
      if_neg (by decide), if_neg (by decide), if_neg (by decide),
      if_neg (by decide), if_neg (by decide), if_pos rfl]

/-- C8 counterexample to the claim as stated: in the stash-diff hunk list
the very first press of the jump-to-top key already moves the cursor from
index 2 to index 0 instead of only recording a pending prefix. -/
theorem stashDiff_first_press_moves_cursor :
    (stashDiffKeyUpdate exStashDiffModel Keys.Top).cursor = 0 ∧
    exStashDiffModel.cursor = 2 := ⟨rfl, rfl⟩

/-- C8 witness: the discipline at concrete models — a repeated press in the
status view jumps to the top, and a single press in the stash-diff view
jumps immediately. -/
theorem views_jump_to_top_discipline_witness :
    (statusKeyUpdate { exStatusModel with lastKey := Keys.Top } Keys.Top
        (Except.ok [])).cursor = 0 ∧
    (stashDiffKeyUpdate exStashDiffModel Keys.Top).cursor = 0 :=
  ⟨((views_jump_to_top_discipline { exStatusModel with lastKey := Keys.Top }
      exDiffModel exBranchesModel exStashesModel exStashDiffModel Keys.Top
      (Except.ok []) rfl rfl rfl rfl rfl rfl rfl rfl rfl rfl rfl rfl rfl rfl
      rfl).1 ⟨rfl, rfl⟩).1,
   (views_jump_to_top_discipline { exStatusModel with lastKey := Keys.Top }
      exDiffModel exBranchesModel exStashesModel exStashDiffModel Keys.Top
      (Except.ok []) rfl rfl rfl rfl rfl rfl rfl rfl rfl rfl rfl rfl rfl rfl
      rfl).2.2.2.2.2.2.2.2.2.2.2.2 rfl⟩

/-- The `splitOnChar` never returns the empty list. -/
theorem splitOnChar_ne_nil (c : Char) (t : GoStr) : splitOnChar c t ≠ [] := by
  cases t with
  | nil => simp [splitOnChar]
  | cons a r =>
    unfold splitOnChar
    cases splitOnChar c r with
    | nil => simp
    | cons s ss => by_cases h : a = c <;> simp [h]

/-- No piece produced by `splitOnChar` contains the separator. -/
theorem splitOnChar_not_mem (c : Char) (t : GoStr) :
    ∀ s ∈ splitOnChar c t, c ∉ s := by
  induction t with
  | nil =>
    intro s hs
    simp only [splitOnChar, List.mem_singleton] at hs
    subst hs
    simp
  | cons a r ih =>
    intro s hs
    unfold splitOnChar at hs
    cases hsp : splitOnChar c r with
    | nil => exact absurd hsp (splitOnChar_ne_nil c r)
    | cons s0 ss =>
      rw [hsp] at hs
      dsimp only at hs
      by_cases hac : a = c
      · rw [if_pos hac] at hs
        rcases List.mem_cons.1 hs with rfl | hs
        · simp
        · exact ih s (hsp ▸ hs)
      · rw [if_neg hac] at hs
        rcases List.mem_cons.1 hs with rfl | hs
        · intro hmem
          rcases List.mem_cons.1 hmem with rfl | hmem
          · exact hac rfl
          · exact ih s0 (hsp ▸ List.mem_cons_self s0 ss) hmem
        · exact ih s (hsp ▸ List.mem_cons_of_mem s0 hs)

/-- The cons unfolding of `splitOnChar`. -/
theorem splitOnChar_cons (c a : Char) (r : GoStr) :
    splitOnChar c (a :: r) =
      match splitOnChar c r with
      | [] => [[]]
      | s :: ss => if a = c then [] :: s :: ss else (a :: s) :: ss := rfl

/-- Splitting a separator-terminated piece off the front. -/
theorem splitOnChar_append_cons (c : Char) (l r : GoStr) (hl : c ∉ l) :
    splitOnChar c (l ++ c :: r) = l :: splitOnChar c r := by
  induction l with
  | nil =>
    simp only [List.nil_append]
    cases hsp : splitOnChar c r with
    | nil => exact absurd hsp (splitOnChar_ne_nil c r)
    | cons s0 ss =>
      rw [splitOnChar_cons, hsp]
      dsimp only
      rw [if_pos rfl]
  | cons a l' ih =>
    have ha : a ≠ c := fun hac => hl (hac ▸ List.mem_cons_self a l')
    have hl' : c ∉ l' := fun hmem => hl (List.mem_cons_of_mem a hmem)
    show splitOnChar c (a :: (l' ++ c :: r)) = (a :: l') :: splitOnChar c r
    rw [splitOnChar_cons, ih hl']
    dsimp only
    rw [if_neg ha]

/-- Splitting a concatenation of separator-terminated pieces: all the
pieces come back, plus a final empty piece. -/
theorem splitOnChar_flatten (c : Char) (ls : List GoStr)
    (h : ∀ l ∈ ls, c ∉ l) :
    splitOnChar c ((ls.map (fun l => l ++ [c])).flatten) = ls ++ [[]] := by
  induction ls with
  | nil => simp [splitOnChar]
  | cons l t ih =>
    have hstep : ((l :: t).map (fun l => l ++ [c])).flatten =
        l ++ c :: (t.map (fun l => l ++ [c])).flatten := by
      simp
    rw [hstep,
      splitOnChar_append_cons c l _ (h l (List.mem_cons_self l t)),
      ih (fun x hx => h x (List.mem_cons_of_mem l hx))]
    rfl

/-- The `GeneratePatch` is the concatenation of all its newline-terminated
lines. -/
theorem GeneratePatch_eq (h : Hunk) (f : FileDiff) :
    GeneratePatch h f =
      (((f.Header ++ [h.Header]) ++ h.Lines.map (fun dl => dl.Content)).map
        nlTerm).flatten := by
  unfold GeneratePatch
  simp [List.map_map, Function.comp_def]

/-- The `goStartsWith` is list-prefix. -/
theorem goStartsWith_iff (s p : GoStr) : goStartsWith s p = true ↔ p <+: s := by
  unfold goStartsWith
  exact List.isPrefixOf_iff_prefix

/-- Two witnessed starts where neither literal starts the other are
contradictory. -/
theorem not_both_starts (l p q : GoStr) (hp : goStartsWith l p = true)
    (hq : goStartsWith l q = true) (h1 : goStartsWith q p = false)
    (h2 : goStartsWith p q = false) : False := by
  rw [goStartsWith_iff] at hp hq
  rcases le_total p.length q.length with h | h
  · have := List.prefix_of_prefix_length_le hp hq h
    rw [← goStartsWith_iff] at this
    rw [h1] at this
    exact Bool.false_ne_true this
  · have := List.prefix_of_prefix_length_le hq hp h
    rw [← goStartsWith_iff] at this
    rw [h2] at this
    exact Bool.false_ne_true this

/-- A recognised file-header line never starts a new file section. -/
theorem fileHeader_not_diffGit (l : GoStr) (h : isFileHeaderLine l = true) :
    goStartsWith l diffGitLit = false := by
  cases hdg : goStartsWith l diffGitLit with
  | false => rfl
  | true =>
    exfalso
    unfold isFileHeaderLine fileHeaderLits at h
    simp only [List.any_eq_true, List.mem_cons, List.not_mem_nil, or_false] at h
    rcases h with ⟨p, hp, hstart⟩
    rcases hp with rfl | rfl | rfl | rfl | rfl | rfl | rfl <;>
      exact not_both_starts l _ diffGitLit hstart hdg (by decide) (by decide)

/-- A hunk-marker line is never a recognised file-header line. -/
theorem atat_not_fileHeader (l : GoStr) (h : goStartsWith l atatLit = true) :
    isFileHeaderLine l = false := by
  cases hfh : isFileHeaderLine l with
  | false => rfl
  | true =>
    exfalso
    unfold isFileHeaderLine fileHeaderLits at hfh
    simp only [List.any_eq_true, List.mem_cons, List.not_mem_nil, or_false] at hfh
    rcases hfh with ⟨p, hp, hstart⟩
    rcases hp with rfl | rfl | rfl | rfl | rfl | rfl | rfl <;>
      exact not_both_starts l _ atatLit hstart h (by decide) (by decide)

/-- A hunk-marker line never starts a new file section. -/
theorem atat_not_diffGit (l : GoStr) (h : goStartsWith l atatLit = true) :
    goStartsWith l diffGitLit = false := by
  cases hdg : goStartsWith l diffGitLit with
  | false => rfl
  | true => exact absurd (not_both_starts l atatLit diffGitLit h hdg
      (by decide) (by decide)) not_false

/-- The `mkHunk` stores the raw header line. -/
theorem mkHunk_Header (l p : GoStr) (fi : Int) (hi : Nat) :
    (mkHunk l p fi hi).Header = l := by
  unfold mkHunk
  cases hm : matchHunkHeader l with
  | none => rfl
  | some g =>
    obtain ⟨g1, g2, g3, g4⟩ := g
    rfl

/-- The `mkHunk` starts with no lines. -/
theorem mkHunk_Lines (l p : GoStr) (fi : Int) (hi : Nat) :
    (mkHunk l p fi hi).Lines = [] := by
  unfold mkHunk
  cases hm : matchHunkHeader l with
  | none => rfl
  | some g =>
    obtain ⟨g1, g2, g3, g4⟩ := g
    rfl

/-- Flushing a well-formed hunk into a well-formed file keeps it
well-formed. -/
theorem flushHunk_ok (f : FileDiff) (ch : Option Hunk) (hf : FileDiffOK f)
    (hch : ∀ h, ch = some h → HunkOK h) : FileDiffOK (flushHunk f ch) := by
  cases ch with
  | none => exact hf
  | some h =>
    obtain ⟨hhead, hhunks⟩ := hf
    refine ⟨hhead, ?_⟩
    intro hk hmem
    dsimp only [flushHunk] at hmem
    rcases List.mem_append.1 hmem with hmem | hmem
    · exact hhunks hk hmem
    · rw [List.mem_singleton.1 hmem]
      exact hch h rfl

/-- The one-line unfolding of the parser loop. -/
theorem parseDiffLoop_cons_eq (line : GoStr) (rest : List GoStr)
    (cf : Option FileDiff) (ch : Option Hunk) (fi : Int)
    (acc : List FileDiff) :
    parseDiffLoop (line :: rest) cf ch fi acc =
      (if goStartsWith line diffGitLit then
        let acc' :=
          match cf with
          | none => acc
          | some f => acc ++ [flushHunk f ch]
        parseDiffLoop rest
          (some { Path := extractGitPath line, Hunks := [], Header := [line] })
          none (fi + 1) acc'
      else
        match cf, ch with
        | some f, none =>
          if isFileHeaderLine line then
            parseDiffLoop rest (some { f with Header := f.Header ++ [line] }) none fi acc
          else if goStartsWith line atatLit then
            parseDiffLoop rest (some f) (some (mkHunk line f.Path fi f.Hunks.length)) fi acc
          else
            parseDiffLoop rest (some f) none fi acc
        | some f, some h =>
          if goStartsWith line atatLit then
            let f' := flushHunk f (some h)
            parseDiffLoop rest (some f') (some (mkHunk line f'.Path fi f'.Hunks.length)) fi acc
          else
            parseDiffLoop rest (some f)
              (some { h with Lines := h.Lines ++ [mkDiffLine line] }) fi acc
        | none, ch' =>
          if goStartsWith line atatLit then
            none
          else
            match ch' with
            | none => parseDiffLoop rest none none fi acc
            | some h =>
              parseDiffLoop rest none
                (some { h with Lines := h.Lines ++ [mkDiffLine line] }) fi acc) := rfl

/-- Every file in a successful run of the parser loop is well-formed,
provided the pending state is. -/
theorem parseDiffLoop_ok :
    ∀ (lines : List GoStr) (cf : Option FileDiff) (ch : Option Hunk) (fi : Int)
      (acc fs : List FileDiff),
      parseDiffLoop lines cf ch fi acc = some fs →
      (∀ l ∈ lines, '\n' ∉ l) →
      (∀ f ∈ acc, FileDiffOK f) →
      (∀ f, cf = some f → FileDiffOK f) →
      (∀ h, ch = some h → HunkOK h) →
      ∀ f ∈ fs, FileDiffOK f := by
  intro lines
  induction lines with
  | nil =>
    intro cf ch fi acc fs hrun hnl hacc hcf hch
    cases cf with
    | none =>
      have heq : acc = fs := Option.some.inj hrun
      subst heq
      exact hacc
    | some f =>
      have heq : acc ++ [flushHunk f ch] = fs := Option.some.inj hrun
      subst heq
      intro g hg
      rcases List.mem_append.1 hg with hg | hg
      · exact hacc g hg
      · rw [List.mem_singleton.1 hg]
        exact flushHunk_ok f ch (hcf f rfl) hch
  | cons line rest ih =>
    intro cf ch fi acc fs hrun hnl hacc hcf hch
    have hnlline : ('\n' : Char) ∉ line := hnl line (List.mem_cons_self line rest)
    have hnlrest : ∀ l ∈ rest, ('\n' : Char) ∉ l :=
      fun l hl => hnl l (List.mem_cons_of_mem line hl)
    rw [parseDiffLoop_cons_eq] at hrun
    by_cases hdg : goStartsWith line diffGitLit = true
    · rw [if_pos hdg] at hrun
      dsimp only at hrun
      have hnewf : FileDiffOK
          { Path := extractGitPath line, Hunks := [], Header := [line] } := by
        refine ⟨⟨line, [], rfl, hdg, hnlline, by simp⟩, by simp⟩
      cases cf with
      | none =>
        exact ih _ _ _ _ _ hrun hnlrest hacc
          (fun g hg => (Option.some.inj hg) ▸ hnewf)
          (fun h hh => by cases hh)
      | some f =>
        refine ih _ _ _ _ _ hrun hnlrest ?_ 
          (fun g hg => (Option.some.inj hg) ▸ hnewf)
          (fun h hh => by cases hh)
        intro g hg
        rcases List.mem_append.1 hg with hg | hg
        · exact hacc g hg
        · rw [List.mem_singleton.1 hg]
          exact flushHunk_ok f ch (hcf f rfl) hch
    · rw [if_neg hdg] at hrun
      have hdg' : goStartsWith line diffGitLit = false := by
        cases hx : goStartsWith line diffGitLit
        · rfl
        · exact absurd hx hdg
      cases cf with
      | some f =>
        cases ch with
        | none =>
          dsimp only at hrun
          by_cases hfh : isFileHeaderLine line = true
          · rw [if_pos hfh] at hrun
            refine ih _ _ _ _ _ hrun hnlrest hacc ?_ (fun h hh => by cases hh)
            intro g hg
            obtain rfl := (Option.some.inj hg).symm
            obtain ⟨⟨h0, t, hH, hh0, hh0n, ht⟩, hhunks⟩ := hcf f rfl
            refine ⟨⟨h0, t ++ [line], ?_, hh0, hh0n, ?_⟩, hhunks⟩
            · dsimp only
              rw [hH]
              rfl
            · intro l hl
              rcases List.mem_append.1 hl with hl | hl
              · exact ht l hl
              · rw [List.mem_singleton.1 hl]
                exact ⟨hfh, hnlline⟩
          · rw [if_neg hfh] at hrun
            by_cases hat : goStartsWith line atatLit = true
            · rw [if_pos hat] at hrun
              refine ih _ _ _ _ _ hrun hnlrest hacc (hcf) ?_
              intro h hh
              obtain rfl := (Option.some.inj hh).symm
              refine ⟨?_, ?_, ?_⟩
              · rw [mkHunk_Header]
                exact hat
              · rw [mkHunk_Header]
                exact hnlline
              · rw [mkHunk_Lines]
                intro dl hdl
                cases hdl
            · rw [if_neg hat] at hrun
              exact ih _ _ _ _ _ hrun hnlrest hacc hcf (fun h hh => by cases hh)
        | some h =>
          dsimp only at hrun
          by_cases hat : goStartsWith line atatLit = true
          · rw [if_pos hat] at hrun
            refine ih _ _ _ _ _ hrun hnlrest hacc ?_ ?_
            · intro g hg
              obtain rfl := (Option.some.inj hg).symm
              exact flushHunk_ok f (some h) (hcf f rfl) hch
            · intro h2 hh2
              obtain rfl := (Option.some.inj hh2).symm
              refine ⟨?_, ?_, ?_⟩
              · rw [mkHunk_Header]
                exact hat
              · rw [mkHunk_Header]
                exact hnlline
              · rw [mkHunk_Lines]
                intro dl hdl
                cases hdl
          · rw [if_neg hat] at hrun
            refine ih _ _ _ _ _ hrun hnlrest hacc hcf ?_
            intro h2 hh2
            obtain rfl := (Option.some.inj hh2).symm
            obtain ⟨hh1, hh2', hh3⟩ := hch h rfl
            refine ⟨hh1, hh2', ?_⟩
            intro dl hdl
            dsimp only at hdl
            rcases List.mem_append.1 hdl with hdl | hdl
            · exact hh3 dl hdl
            · rw [List.mem_singleton.1 hdl]
              have hat' : goStartsWith line atatLit = false := by
                cases hx : goStartsWith line atatLit
                · rfl
                · exact absurd hx hat
              exact ⟨hdg', hat', rfl, hnlline⟩
      | none =>
        dsimp only at hrun
        by_cases hat : goStartsWith line atatLit = true
        · rw [if_pos hat] at hrun
          cases hrun
        · rw [if_neg hat] at hrun
          cases ch with
          | none => exact ih _ _ _ _ _ hrun hnlrest hacc (fun g hg => by cases hg) (fun h hh => by cases hh)
          | some h =>
            refine ih _ _ _ _ _ hrun hnlrest hacc (fun g hg => by cases hg) ?_
            intro h2 hh2
            obtain rfl := (Option.some.inj hh2).symm
            obtain ⟨hh1, hh2', hh3⟩ := hch h rfl
            refine ⟨hh1, hh2', ?_⟩
            intro dl hdl
            dsimp only at hdl
            rcases List.mem_append.1 hdl with hdl | hdl
            · exact hh3 dl hdl
            · rw [List.mem_singleton.1 hdl]
              have hat' : goStartsWith line atatLit = false := by
                cases hx : goStartsWith line atatLit
                · rfl
                · exact absurd hx hat
              exact ⟨hdg', hat', rfl, hnlline⟩

/-- Running the parser loop over a block of file-header lines only extends
the current file's header. -/
theorem parseDiffLoop_headerRun :
    ∀ (t rest : List GoStr) (f : FileDiff) (fi : Int) (acc : List FileDiff),
      (∀ l ∈ t, isFileHeaderLine l = true) →
      parseDiffLoop (t ++ rest) (some f) none fi acc =
        parseDiffLoop rest (some { f with Header := f.Header ++ t }) none fi acc := by
  intro t
  induction t with
  | nil =>
    intro rest f fi acc _
    rw [List.nil_append, List.append_nil]
  | cons l t ih =>
    intro rest f fi acc hall
    have hfh := hall l (List.mem_cons_self l t)
    have hdg := fileHeader_not_diffGit l hfh
    rw [List.cons_append, parseDiffLoop_cons_eq,
      if_neg (by rw [hdg]; exact Bool.false_ne_true)]
    dsimp only
    rw [if_pos hfh,
      ih rest _ fi acc (fun x hx => hall x (List.mem_cons_of_mem l hx))]
    have harr : (f.Header ++ [l]) ++ t = f.Header ++ l :: t := by simp
    rw [harr]

/-- Running the parser loop over a block of plain content lines only
extends the current hunk's lines. -/
theorem parseDiffLoop_contentRun :
    ∀ (cs rest : List GoStr) (f : FileDiff) (h : Hunk) (fi : Int)
      (acc : List FileDiff),
      (∀ l ∈ cs, goStartsWith l diffGitLit = false ∧
        goStartsWith l atatLit = false) →
      parseDiffLoop (cs ++ rest) (some f) (some h) fi acc =
        parseDiffLoop rest (some f)
          (some { h with Lines := h.Lines ++ cs.map mkDiffLine }) fi acc := by
  intro cs
  induction cs with
  | nil =>
    intro rest f h fi acc _
    rw [List.nil_append, List.map_nil, List.append_nil]
  | cons l cs ih =>
    intro rest f h fi acc hall
    obtain ⟨hdg, hat⟩ := hall l (List.mem_cons_self l cs)
    rw [List.cons_append, parseDiffLoop_cons_eq,
      if_neg (by rw [hdg]; exact Bool.false_ne_true)]
    dsimp only
    rw [if_neg (by rw [hat]; exact Bool.false_ne_true),
      ih rest f _ fi acc (fun x hx => hall x (List.mem_cons_of_mem l hx))]
    have harr : (h.Lines ++ [mkDiffLine l]) ++ cs.map mkDiffLine =
        h.Lines ++ (l :: cs).map mkDiffLine := by simp
    rw [harr]

/-- C1 (amended): for every hunk H produced by `parseDiff`, with its owning
file diff F, re-parsing `GeneratePatch H F` yields exactly one file with
exactly one hunk whose header equals `H.Header` and whose line sequence is
`H.Lines` followed by one extra empty context line — the generated patch
ends in a newline, so the split re-reads a final empty string as an empty
context content line. -/
theorem generatePatch_reparse (s : GoStr) (r : DiffResult) (F : FileDiff)
    (H : Hunk) (hr : parseDiff s = some r) (hF : F ∈ r.Files)
    (hH : H ∈ F.Hunks) :
    ∃ F', parseDiff (GeneratePatch H F) = some { Files := [F'] } ∧
      F'.Hunks.map (fun hk => (hk.Header, hk.Lines)) =
        [(H.Header, H.Lines ++ [{ type := LineType.LineContext, Content := [] }])] := by
  have hFok : FileDiffOK F := by
    unfold parseDiff at hr
    by_cases hs : s = []
    · rw [if_pos hs] at hr
      obtain rfl := Option.some.inj hr
      exact absurd hF (List.not_mem_nil F)
    · rw [if_neg hs] at hr
      cases hloop : parseDiffLoop (splitOnChar '\n' s) none none (-1) [] with
      | none =>
        rw [hloop] at hr
        cases hr
      | some fs =>
        rw [hloop] at hr
        dsimp only [Option.map] at hr
        obtain rfl := Option.some.inj hr
        exact parseDiffLoop_ok _ _ _ _ _ _ hloop
          (fun l hl => splitOnChar_not_mem '\n' s l hl)
          (fun f hf => absurd hf (List.not_mem_nil f))
          (fun f hf => by cases hf) (fun h hh => by cases hh) F hF
  have hHok : HunkOK H := hFok.2 H hH
  obtain ⟨⟨h0, t, hHeadEq, hh0dg, hh0n, ht⟩, -⟩ := hFok
  obtain ⟨hatH, hHn, hlines⟩ := hHok
  have hsplit : splitOnChar '\n' (GeneratePatch H F) =
      ((F.Header ++ [H.Header]) ++ H.Lines.map (fun dl => dl.Content)) ++ [[]] := by
    rw [GeneratePatch_eq]
    apply splitOnChar_flatten
    intro l hl
    rcases List.mem_append.1 hl with hl | hl
    · rcases List.mem_append.1 hl with hl | hl
      · rw [hHeadEq] at hl
        rcases List.mem_cons.1 hl with rfl | hl
        · exact hh0n
        · exact (ht l hl).2
      · rw [List.mem_singleton.1 hl]
        exact hHn
    · rcases List.mem_map.1 hl with ⟨dl, hdl, rfl⟩
      exact (hlines dl hdl).2.2.2
  have hne : GeneratePatch H F ≠ [] := by
    rw [GeneratePatch_eq, hHeadEq]
    simp [nlTerm]
  unfold parseDiff
  rw [if_neg hne, hsplit, hHeadEq]
  have hlist : (((h0 :: t) ++ [H.Header]) ++
        H.Lines.map (fun dl => dl.Content)) ++ [[]] =
      h0 :: (t ++ ([H.Header] ++ (H.Lines.map (fun dl => dl.Content) ++ [[]]))) := by
    simp
  rw [hlist, parseDiffLoop_cons_eq, if_pos hh0dg]
  dsimp only
  rw [parseDiffLoop_headerRun t _ _ _ _ (fun l hl => (ht l hl).1),
    List.singleton_append, parseDiffLoop_cons_eq,
    if_neg (by rw [atat_not_diffGit H.Header hatH]; exact Bool.false_ne_true)]
  dsimp only
  rw [if_neg (by rw [atat_not_fileHeader H.Header hatH]; exact Bool.false_ne_true),
    if_pos hatH,
    parseDiffLoop_contentRun _ _ _ _ _ _
      (fun l hl => by
        rcases List.mem_map.1 hl with ⟨dl, hdl, rfl⟩
        exact ⟨(hlines dl hdl).1, (hlines dl hdl).2.1⟩),
    parseDiffLoop_cons_eq,
    if_neg (by decide)]
  dsimp only
  rw [if_neg (by decide)]
  refine ⟨_, rfl, ?_⟩
  dsimp only
  rw [mkHunk_Header, mkHunk_Lines]
  have hmapid : (H.Lines.map (fun dl => dl.Content)).map mkDiffLine = H.Lines := by
    rw [List.map_map]
    have : H.Lines.map (mkDiffLine ∘ fun dl => dl.Content) = H.Lines.map id := by
      apply List.map_congr_left
      intro dl hdl
      have hty := (hlines dl hdl).2.2.1
      show mkDiffLine dl.Content = dl
      unfold mkDiffLine
      cases dl with
      | mk ty co => 
        simp only at hty
        rw [← hty]
    rw [this, List.map_id]
  rw [hmapid]
  rfl

/-- C1 counterexample to the claim as stated: at a concrete parsed hunk the
re-parsed patch's hunk carries one extra empty context line, so its line
sequence differs from `H.Lines`. -/
theorem generatePatch_reparse_counterexample :
    parseDiff exDiffText = some exDiffResult ∧
    exDiffResult.Files = [exFileDiff] ∧
    exFileDiff.Hunks = [exHunk] ∧
    (parseDiff (GeneratePatch exHunk exFileDiff)).map
      (fun r => r.Files.map (fun f => f.Hunks.map (fun hk => (hk.Header, hk.Lines)))) =
      some [[(exHunk.Header,
        exHunk.Lines ++ [{ type := LineType.LineContext, Content := [] }])]] ∧
    exHunk.Lines ++ [{ type := LineType.LineContext, Content := [] }] ≠ exHunk.Lines := by
  refine ⟨rfl, rfl, rfl, rfl, ?_⟩
  decide

/-- C1 witness: the amended round trip at the concrete example. -/
theorem generatePatch_reparse_witness :
    ∃ F', parseDiff (GeneratePatch exHunk exFileDiff) = some { Files := [F'] } ∧
      F'.Hunks.map (fun hk => (hk.Header, hk.Lines)) =
        [(exHunk.Header,
          exHunk.Lines ++ [{ type := LineType.LineContext, Content := [] }])] :=
  generatePatch_reparse exDiffText exDiffResult exFileDiff exHunk rfl
    (by decide) (by decide)

